import Mathlib

/-!
# random-accessors-java: the byte-swapping block copy of `AccessorNatives`

A shallow embedding of `src/main/c/me_devcexx_accessors_AccessorNatives.c`:
the scalar swap primitives `flip16`, `flip16_quad`, `flip32`, `flip32_dual`,
`flip64`, the three kernels `cpymem_flip16`, `cpymem_flip32`, `cpymem_flip64`,
the JNI entry point `Java_me_devcexx_accessors_AccessorNatives_copyMemory` and
the accessor `Java_me_devcexx_accessors_AccessorNatives_strerror`.

Conventions of the embedding

* C unsigned integers of width `w` are natural numbers; every operation that can
  leave the range (`<<`, the conversion of a promoted `int` back to `uint16_t`,
  the product `dataSize * count` handed to `memcpy`) is followed by an explicit
  `% 2 ^ w`.
* Memory is a total map from addresses to bytes. A multi-byte load or store takes
  the byte order of the host as a parameter, so that every statement about the
  kernels can be made for a little-endian and for a big-endian host.
* Pointers held by the entry point are 64 bit values; the addresses visited inside
  a kernel are `pointer + k` in the naturals (a C pointer that leaves its object
  has no defined value, so no wrap-around is modelled there).
* `unsigned long` is 64 bits and `unsigned int` 32 bits (the LP64 data model of
  the System V hosts the file is written for).
* The JNI pinning calls `GetPrimitiveArrayCritical` and
  `ReleasePrimitiveArrayCritical` are recorded in an event log.
-/

namespace AccessorNatives

/-! ## Scalar swap primitives -/

/-- The C function `flip16`: `(((x & 0xff00) >> 8) | (x << 8))`, computed on the
promoted `int` and converted to `uint16_t` on return. -/
def flip16 (x : Nat) : Nat :=
  (((x &&& 0xff00) >>> 8) ||| (x <<< 8)) % 2 ^ 16

/-- The C function `flip16_quad` on a `uint64_t`. -/
def flip16_quad (x : Nat) : Nat :=
  ((x &&& 0xff00ff00ff00ff00) >>> 8) ||| (((x &&& 0x00ff00ff00ff00ff) <<< 8) % 2 ^ 64)

/-- The C function `flip32` on a `uint32_t`. -/
def flip32 (x : Nat) : Nat :=
  ((x <<< 24) % 2 ^ 32) |||
    (((x <<< 8) % 2 ^ 32) &&& 0x00ff0000) |||
    ((x >>> 8) &&& 0x0000ff00) |||
    ((x >>> 24) &&& 0x000000ff)

/-- The C function `flip32_dual` on a `uint64_t`: two assignments to `x`. -/
def flip32_dual (x : Nat) : Nat :=
  let x := (((x &&& 0x0000ffff0000ffff) <<< 16) % 2 ^ 64) ||| ((x &&& 0xffff0000ffff0000) >>> 16)
  let x := (((x &&& 0x00ff00ff00ff00ff) <<< 8) % 2 ^ 64) ||| ((x &&& 0xff00ff00ff00ff00) >>> 8)
  x

/-- The C function `flip64` on a `uint64_t`: three assignments to `x`. -/
def flip64 (x : Nat) : Nat :=
  let x := (((x &&& 0x00000000ffffffff) <<< 32) % 2 ^ 64) ||| ((x &&& 0xffffffff00000000) >>> 32)
  let x := (((x &&& 0x0000ffff0000ffff) <<< 16) % 2 ^ 64) ||| ((x &&& 0xffff0000ffff0000) >>> 16)
  let x := (((x &&& 0x00ff00ff00ff00ff) <<< 8) % 2 ^ 64) ||| ((x &&& 0xff00ff00ff00ff00) >>> 8)
  x

/-! ## Memory, loads and stores -/

/-- One byte of memory. -/
abbrev Byte := Fin 256

/-- Byte-addressed memory. -/
abbrev Mem := Nat → Byte

/-- Byte order in which the host assembles a multi-byte integer. -/
inductive ByteOrder where
  | little
  | big
  deriving DecidableEq, Repr

/-- Byte number `k` of the value `v`, byte 0 being the least significant. -/
def byteOf (v k : Nat) : Byte :=
  ⟨(v >>> (8 * k)) % 256, Nat.mod_lt _ (by decide)⟩

/-- Value of the `w` bytes at `p` read least significant byte first. -/
def loadLE (m : Mem) : Nat → Nat → Nat
  | 0, _ => 0
  | w + 1, p => (m p).val + 256 * loadLE m w (p + 1)

/-- Value of the `w` bytes at `p` read most significant byte first. -/
def loadBE (m : Mem) : Nat → Nat → Nat
  | 0, _ => 0
  | w + 1, p => (m (p + w)).val + 256 * loadBE m w p

/-- A `w`-byte load `*(uintN_t*) p` on a host of byte order `h`. -/
def load (h : ByteOrder) (w : Nat) (m : Mem) (p : Nat) : Nat :=
  match h with
  | .little => loadLE m w p
  | .big => loadBE m w p

/-- A `w`-byte store `*(uintN_t*) p = v` on a host of byte order `h`. -/
def store (h : ByteOrder) (w : Nat) (m : Mem) (p : Nat) (v : Nat) : Mem :=
  fun a =>
    if p ≤ a ∧ a < p + w then
      match h with
      | .little => byteOf v (a - p)
      | .big => byteOf v (w - 1 - (a - p))
    else m a

/-- The C library `memcpy(out, in, size)` on regions that do not overlap: the
`size` bytes at `out` become the bytes that were at `inp`. -/
def memcpy (m : Mem) (out inp size : Nat) : Mem :=
  fun a => if out ≤ a ∧ a < out + size then m (inp + (a - out)) else m a

/-! ## The kernels -/

/-- State of a copy loop: the memory and the two running pointers. -/
structure Cursor where
  mem : Mem
  ptr_in : Nat
  ptr_out : Nat

/-- The bulk loop of `cpymem_flip16`:
`while (c-- > 0) { *ptr_out++ = flip16_quad(*ptr_in++); }` on `uint64_t*`. -/
def flip16_bulk (h : ByteOrder) : Nat → Cursor → Cursor
  | 0, s => s
  | c + 1, s =>
    flip16_bulk h c
      ⟨store h 8 s.mem s.ptr_out (flip16_quad (load h 8 s.mem s.ptr_in)),
        s.ptr_in + 8, s.ptr_out + 8⟩

/-- The residual loop of `cpymem_flip16`:
`while (rem-- > 0) { *ptr16_out++ = flip16(*ptr16_in++); }` on `uint16_t*`. -/
def flip16_tail (h : ByteOrder) : Nat → Cursor → Cursor
  | 0, s => s
  | rem + 1, s =>
    flip16_tail h rem
      ⟨store h 2 s.mem s.ptr_out (flip16 (load h 2 s.mem s.ptr_in)),
        s.ptr_in + 2, s.ptr_out + 2⟩

/-- The C function `cpymem_flip16(out, in, n)`, returning the final memory. -/
def cpymem_flip16 (h : ByteOrder) (m : Mem) (out inp n : Nat) : Mem :=
  let c := n / 4
  let s := flip16_bulk h c ⟨m, inp, out⟩
  let rem := (n % 4) % 2 ^ 16
  if rem > 0 then
    (flip16_tail h rem ⟨s.mem, s.ptr_in, s.ptr_out⟩).mem
  else s.mem

/-- The bulk loop of `cpymem_flip32`:
`while (c-- > 0) { *ptr_out++ = flip32_dual(*ptr_in++); }` on `unsigned long*`. -/
def flip32_bulk (h : ByteOrder) : Nat → Cursor → Cursor
  | 0, s => s
  | c + 1, s =>
    flip32_bulk h c
      ⟨store h 8 s.mem s.ptr_out (flip32_dual (load h 8 s.mem s.ptr_in)),
        s.ptr_in + 8, s.ptr_out + 8⟩

/-- The C function `cpymem_flip32(out, in, n)`, returning the final memory. -/
def cpymem_flip32 (h : ByteOrder) (m : Mem) (out inp n : Nat) : Mem :=
  let c := n / 2
  let s := flip32_bulk h c ⟨m, inp, out⟩
  if n % 2 ≠ 0 then
    store h 4 s.mem s.ptr_out (flip32 (load h 4 s.mem s.ptr_in))
  else s.mem

/-- The loop of `cpymem_flip64`:
`while (n-- > 0) { *ptr_out++ = flip64(*ptr_in++); }` on `uint64_t*`. -/
def flip64_loop (h : ByteOrder) : Nat → Cursor → Cursor
  | 0, s => s
  | n + 1, s =>
    flip64_loop h n
      ⟨store h 8 s.mem s.ptr_out (flip64 (load h 8 s.mem s.ptr_in)),
        s.ptr_in + 8, s.ptr_out + 8⟩

/-- The C function `cpymem_flip64(out, in, n)`, returning the final memory. -/
def cpymem_flip64 (h : ByteOrder) (m : Mem) (out inp n : Nat) : Mem :=
  (flip64_loop h n ⟨m, inp, out⟩).mem

/-! ## The JNI entry point -/

/-- Modelled from the spec: the constant `CPYMEM_ERRNO_OK` of the generated header
`me_devcexx_accessors_AccessorNatives.h`, which is not among the sources; the
spec gives `OK = 0`. -/
def CPYMEM_ERRNO_OK : Int := 0

/-- Modelled from the spec: the constant `CPYMEM_ERRNO_INVALID_DATASIZE` of the
generated header `me_devcexx_accessors_AccessorNatives.h`, which is not among the
sources; the spec gives `INVALID_DATASIZE = 1`. -/
def CPYMEM_ERRNO_INVALID_DATASIZE : Int := 1

/-- One call of the pinning interface of the Java runtime. -/
inductive PinEvent where
  | acquire (array : Nat)
  | release (array : Nat) (carray : Nat)
  deriving DecidableEq, Repr

/-- What a call can observe and change: the memory and the chronological log of
pinning calls. -/
structure Env where
  mem : Mem
  pins : List PinEvent

/-- `(*env)->GetPrimitiveArrayCritical(env, array, 0)`: logs the acquisition and
returns the base address `base array` of the pinned array. -/
def GetPrimitiveArrayCritical (base : Nat → Nat) (e : Env) (array : Nat) : Nat × Env :=
  (base array, { e with pins := e.pins ++ [PinEvent.acquire array] })

/-- `(*env)->ReleasePrimitiveArrayCritical(env, array, carray, 0)`. -/
def ReleasePrimitiveArrayCritical (e : Env) (array carray : Nat) : Env :=
  { e with pins := e.pins ++ [PinEvent.release array carray] }

/-- The cast `(char *) (intptr_t) address` of a `jlong`. -/
def ptrOfLong (address : Int) : Nat := (address % 2 ^ 64).toNat

/-- The pointer `p + off` for a `char *p` and a `jlong off`. -/
def ptrAdd (p : Nat) (off : Int) : Nat := (((p : Int) + off) % 2 ^ 64).toNat

/-- The pointer `p - off` for a `char *p` and a `jlong off`. -/
def ptrSub (p : Nat) (off : Int) : Nat := (((p : Int) - off) % 2 ^ 64).toNat

/-- Lines 145-151 (and 153-159) of the entry point: the pointer is the raw
address when the array is `NULL` and the pinned base otherwise; the offset is
added afterwards. -/
def resolve (base : Nat → Nat) (e : Env) (array : Option Nat) (address offset : Int) :
    Nat × Env :=
  let r : Nat × Env :=
    match array with
    | none => (ptrOfLong address, e)
    | some a => GetPrimitiveArrayCritical base e a
  (ptrAdd r.1 offset, r.2)

/-- Lines 173-176 (and 178-181): a present array is released at `p - offset`. -/
def unpin (e : Env) (array : Option Nat) (p : Nat) (offset : Int) : Env :=
  match array with
  | none => e
  | some a => ReleasePrimitiveArrayCritical e a (ptrSub p offset)

/-- The dispatch of lines 161-171: the memory after the chosen copy, or `none`
when the last `else` branch is taken. `count` becomes the `uint64_t n` of a
kernel, and `dataSize * count` the `size_t` of `memcpy`. -/
def dispatch (h : ByteOrder) (m : Mem) (out inp : Nat)
    (dataSize count srcEndianness dstEndianness : Int) : Option Mem :=
  if srcEndianness = dstEndianness ∨ dataSize = 1 then
    some (memcpy m out inp ((dataSize * count) % 2 ^ 64).toNat)
  else if dataSize = 2 then
    some (cpymem_flip16 h m out inp (count % 2 ^ 64).toNat)
  else if dataSize = 4 then
    some (cpymem_flip32 h m out inp (count % 2 ^ 64).toNat)
  else if dataSize = 8 then
    some (cpymem_flip64 h m out inp (count % 2 ^ 64).toNat)
  else none

/-- The JNI function `Java_me_devcexx_accessors_AccessorNatives_copyMemory` on a
host of byte order `h` whose runtime pins array `a` at address `base a`. It
returns the status and the environment after the call. -/
def copyMemory (h : ByteOrder) (base : Nat → Nat) (e : Env)
    (arrayIn : Option Nat) (addressIn offsetIn : Int)
    (arrayOut : Option Nat) (addressOut offsetOut : Int)
    (dataSize count srcEndianness dstEndianness : Int) : Int × Env :=
  let rin := resolve base e arrayIn addressIn offsetIn
  let rout := resolve base rin.2 arrayOut addressOut offsetOut
  match dispatch h rout.2.mem rout.1 rin.1 dataSize count srcEndianness dstEndianness with
  | none => (CPYMEM_ERRNO_INVALID_DATASIZE, rout.2)
  | some m =>
    let e1 : Env := { rout.2 with mem := m }
    let e2 := unpin e1 arrayIn rin.1 offsetIn
    let e3 := unpin e2 arrayOut rout.1 offsetOut
    (CPYMEM_ERRNO_OK, e3)

/-! ## The error accessor -/

/-- The JNI function `Java_me_devcexx_accessors_AccessorNatives_strerror`:
`return (*env)->NewStringUTF(env, strerror(errno));`. The host function
`strerror`, the conversion `NewStringUTF` and the current value of `errno` are
parameters; `err` is the argument of the Java method. -/
def Java_me_devcexx_accessors_AccessorNatives_strerror {α β : Type}
    (strerror : Int → α) (NewStringUTF : α → β) (errno : Int) (err : Int) : β :=
  NewStringUTF (strerror errno)

/-! ## Reference behaviour used by the statements -/

/-- The intended effect of a kernel on `len` bytes: the byte at offset `j` of the
destination becomes the byte of the old memory at the mirrored position of the
same `w`-byte element of the source. -/
def revCopy (w : Nat) (m : Mem) (out inp len : Nat) : Mem :=
  fun a =>
    if out ≤ a ∧ a < out + len then
      m (inp + ((a - out) / w * w + (w - 1 - (a - out) % w)))
    else m a

/-- A sequence of `c` steps, each of which mirrors the elements of one chunk of
`W` bytes and advances both pointers by `W`. -/
def chunkLoop (w W : Nat) : Nat → Cursor → Cursor
  | 0, s => s
  | c + 1, s =>
    chunkLoop w W c ⟨revCopy w s.mem s.ptr_out s.ptr_in W, s.ptr_in + W, s.ptr_out + W⟩

/-- The 16-bit lane `j` of a word: bits `[16 j, 16 j + 16)`. -/
def lane16 (x j : Nat) : Nat := (x >>> (16 * j)) % 2 ^ 16

/-- The 32-bit lane `j` of a word: bits `[32 j, 32 j + 32)`. -/
def lane32 (x j : Nat) : Nat := (x >>> (32 * j)) % 2 ^ 32

/-- One step on a 64-bit word: load, `flip16_quad`, store, both pointers
advanced by 8 bytes. -/
def quad_step (h : ByteOrder) (s : Cursor) : Cursor :=
  ⟨store h 8 s.mem s.ptr_out (flip16_quad (load h 8 s.mem s.ptr_in)),
    s.ptr_in + 8, s.ptr_out + 8⟩

/-- One step on a 16-bit element: load, `flip16`, store, both pointers advanced
by 2 bytes. -/
def elem16_step (h : ByteOrder) (s : Cursor) : Cursor :=
  ⟨store h 2 s.mem s.ptr_out (flip16 (load h 2 s.mem s.ptr_in)),
    s.ptr_in + 2, s.ptr_out + 2⟩

/-- The naive loop for width 2: `flip16` applied to each of the `n` 16-bit
elements, one at a time, in ascending address order. -/
def naive_flip16 (h : ByteOrder) (m : Mem) (out inp n : Nat) : Mem :=
  ((elem16_step h)^[n] ⟨m, inp, out⟩).mem

/-- One step on a 64-bit word: load, `flip32_dual`, store, both pointers
advanced by 8 bytes. -/
def dual_step (h : ByteOrder) (s : Cursor) : Cursor :=
  ⟨store h 8 s.mem s.ptr_out (flip32_dual (load h 8 s.mem s.ptr_in)),
    s.ptr_in + 8, s.ptr_out + 8⟩

/-- One step on a 32-bit element: load, `flip32`, store, both pointers advanced
by 4 bytes. -/
def elem32_step (h : ByteOrder) (s : Cursor) : Cursor :=
  ⟨store h 4 s.mem s.ptr_out (flip32 (load h 4 s.mem s.ptr_in)),
    s.ptr_in + 4, s.ptr_out + 4⟩

/-- The naive loop for width 4: `flip32` applied to each of the `n` 32-bit
elements, one at a time, in ascending address order. -/
def naive_flip32 (h : ByteOrder) (m : Mem) (out inp n : Nat) : Mem :=
  ((elem32_step h)^[n] ⟨m, inp, out⟩).mem

/-! ## Concrete memories for the worked scenarios -/

/-- The memory that holds the bytes `bs` from address `p` on and zero elsewhere. -/
def memOfList (p : Nat) (bs : List Nat) : Mem :=
  fun a => if p ≤ a then Fin.ofNat (bs.getD (a - p) 0) else 0

/-- The `len` bytes of `m` from address `p` on, as numbers. -/
def bytesAt (m : Mem) (p len : Nat) : List Nat :=
  (List.range len).map (fun k => (m (p + k)).val)

/-! ## Bits of the swap primitives -/

theorem testBit_ge_64 (M i : Nat) (hM : M < 2 ^ 64) (hi : 64 ≤ i) : M.testBit i = false :=
  Nat.testBit_lt_two_pow (lt_of_lt_of_le hM (Nat.pow_le_pow_right (by norm_num) hi))

theorem testBit_mask8_lo (i : Nat) :
    Nat.testBit 0x00ff00ff00ff00ff i = decide (i < 64 ∧ i % 16 < 8) := by
  by_cases h : i < 64
  · interval_cases i <;> rfl
  · rw [testBit_ge_64 _ _ (by norm_num) (by omega)]; simp [h]

theorem testBit_mask8_hi (i : Nat) :
    Nat.testBit 0xff00ff00ff00ff00 i = decide (i < 64 ∧ 8 ≤ i % 16) := by
  by_cases h : i < 64
  · interval_cases i <;> rfl
  · rw [testBit_ge_64 _ _ (by norm_num) (by omega)]; simp [h]

theorem testBit_mask16_lo (i : Nat) :
    Nat.testBit 0x0000ffff0000ffff i = decide (i < 64 ∧ i % 32 < 16) := by
  by_cases h : i < 64
  · interval_cases i <;> rfl
  · rw [testBit_ge_64 _ _ (by norm_num) (by omega)]; simp [h]

theorem testBit_mask16_hi (i : Nat) :
    Nat.testBit 0xffff0000ffff0000 i = decide (i < 64 ∧ 16 ≤ i % 32) := by
  by_cases h : i < 64
  · interval_cases i <;> rfl
  · rw [testBit_ge_64 _ _ (by norm_num) (by omega)]; simp [h]

theorem testBit_mask32_lo (i : Nat) :
    Nat.testBit 0x00000000ffffffff i = decide (i < 32) := by
  by_cases h : i < 64
  · interval_cases i <;> rfl
  · rw [testBit_ge_64 _ _ (by norm_num) (by omega)]; simp; omega

theorem testBit_mask32_hi (i : Nat) :
    Nat.testBit 0xffffffff00000000 i = decide (32 ≤ i ∧ i < 64) := by
  by_cases h : i < 64
  · interval_cases i <;> rfl
  · rw [testBit_ge_64 _ _ (by norm_num) (by omega)]; simp [h]

theorem testBit_ff00 (i : Nat) : Nat.testBit 0xff00 i = decide (8 ≤ i ∧ i < 16) := by
  by_cases h : i < 64
  · interval_cases i <;> rfl
  · rw [testBit_ge_64 _ _ (by norm_num) (by omega)]; simp; omega

theorem testBit_ff0000 (i : Nat) : Nat.testBit 0x00ff0000 i = decide (16 ≤ i ∧ i < 24) := by
  by_cases h : i < 64
  · interval_cases i <;> rfl
  · rw [testBit_ge_64 _ _ (by norm_num) (by omega)]; simp; omega

theorem testBit_ff (i : Nat) : Nat.testBit 0x000000ff i = decide (i < 8) := by
  by_cases h : i < 64
  · interval_cases i <;> rfl
  · rw [testBit_ge_64 _ _ (by norm_num) (by omega)]; simp; omega

/-- One exchange of the neighbouring 8-bit groups of a 64-bit word. -/
theorem testBit_swap8 (x i : Nat) :
    ((((x &&& 0x00ff00ff00ff00ff) <<< 8) % 2 ^ 64) |||
        ((x &&& 0xff00ff00ff00ff00) >>> 8)).testBit i
      = (decide (i < 64) && x.testBit (if i % 16 < 8 then i + 8 else i - 8)) := by
  simp only [Nat.testBit_or, Nat.testBit_and, Nat.testBit_shiftLeft, Nat.testBit_shiftRight,
    Nat.testBit_mod_two_pow, testBit_mask8_lo, testBit_mask8_hi]
  by_cases h64 : i < 64 <;> by_cases h8 : i % 16 < 8 <;> by_cases hge : 8 ≤ i <;>
    first
    | (exfalso; omega)
    | simp (disch := omega) only [decide_eq_true, decide_eq_false, if_pos, if_neg,
        Bool.and_true, Bool.true_and, Bool.false_and, Bool.and_false, Bool.or_false,
        Bool.false_or, Nat.add_comm 8 i, h8, if_true, if_false]

/-- One exchange of the neighbouring 16-bit groups of a 64-bit word. -/
theorem testBit_swap16 (x i : Nat) :
    ((((x &&& 0x0000ffff0000ffff) <<< 16) % 2 ^ 64) |||
        ((x &&& 0xffff0000ffff0000) >>> 16)).testBit i
      = (decide (i < 64) && x.testBit (if i % 32 < 16 then i + 16 else i - 16)) := by
  simp only [Nat.testBit_or, Nat.testBit_and, Nat.testBit_shiftLeft, Nat.testBit_shiftRight,
    Nat.testBit_mod_two_pow, testBit_mask16_lo, testBit_mask16_hi]
  by_cases h64 : i < 64 <;> by_cases h8 : i % 32 < 16 <;> by_cases hge : 16 ≤ i <;>
    first
    | (exfalso; omega)
    | simp (disch := omega) only [decide_eq_true, decide_eq_false, if_pos, if_neg,
        Bool.and_true, Bool.true_and, Bool.false_and, Bool.and_false, Bool.or_false,
        Bool.false_or, Nat.add_comm 16 i, h8, if_true, if_false]

/-- The exchange of the two 32-bit halves of a 64-bit word. -/
theorem testBit_swap32 (x i : Nat) :
    ((((x &&& 0x00000000ffffffff) <<< 32) % 2 ^ 64) |||
        ((x &&& 0xffffffff00000000) >>> 32)).testBit i
      = (decide (i < 64) && x.testBit (if i < 32 then i + 32 else i - 32)) := by
  simp only [Nat.testBit_or, Nat.testBit_and, Nat.testBit_shiftLeft, Nat.testBit_shiftRight,
    Nat.testBit_mod_two_pow, testBit_mask32_lo, testBit_mask32_hi]
  by_cases h64 : i < 64 <;> by_cases h8 : i < 32 <;>
    first
    | (exfalso; omega)
    | simp (disch := omega) only [decide_eq_true, decide_eq_false, if_pos, if_neg,
        Bool.and_true, Bool.true_and, Bool.false_and, Bool.and_false, Bool.or_false,
        Bool.false_or, Nat.add_comm 32 i, h8, if_true, if_false]

theorem testBit_flip64 (x i : Nat) :
    (flip64 x).testBit i = (decide (i < 64) && x.testBit (56 - 8 * (i / 8) + i % 8)) := by
  unfold flip64
  simp only [testBit_swap8, testBit_swap16, testBit_swap32]
  by_cases h64 : i < 64
  · split_ifs <;>
      first
      | (exfalso; omega)
      | (simp (disch := omega) only [decide_eq_true, Bool.true_and]; congr 1; omega)
  · simp [h64]

theorem testBit_flip32_dual (x i : Nat) :
    (flip32_dual x).testBit i
      = (decide (i < 64) && x.testBit (32 * (i / 32) + (24 - 8 * (i % 32 / 8)) + i % 8)) := by
  unfold flip32_dual
  simp only [testBit_swap8, testBit_swap16]
  by_cases h64 : i < 64
  · split_ifs <;>
      first
      | (exfalso; omega)
      | (simp (disch := omega) only [decide_eq_true, Bool.true_and]; congr 1; omega)
  · simp [h64]

theorem testBit_flip16_quad (x i : Nat) :
    (flip16_quad x).testBit i
      = (decide (i < 64) && x.testBit (if i % 16 < 8 then i + 8 else i - 8)) := by
  unfold flip16_quad
  rw [Nat.lor_comm, testBit_swap8]

theorem testBit_flip16 (x i : Nat) :
    (flip16 x).testBit i
      = (decide (i < 16) && x.testBit (if i < 8 then i + 8 else i - 8)) := by
  unfold flip16
  simp only [Nat.testBit_or, Nat.testBit_and, Nat.testBit_shiftLeft, Nat.testBit_shiftRight,
    Nat.testBit_mod_two_pow, testBit_ff00]
  by_cases h16 : i < 16 <;> by_cases h8 : i < 8 <;>
    first
    | (exfalso; omega)
    | simp (disch := omega) only [decide_eq_true, decide_eq_false, if_pos, if_neg,
        Bool.and_true, Bool.true_and, Bool.false_and, Bool.and_false, Bool.or_false,
        Bool.false_or, Nat.add_comm 8 i, h8, if_true, if_false]

theorem testBit_flip32 (x i : Nat) :
    (flip32 x).testBit i
      = (decide (i < 32) && x.testBit (24 - 8 * (i / 8) + i % 8)) := by
  unfold flip32
  simp only [Nat.testBit_or, Nat.testBit_and, Nat.testBit_shiftLeft, Nat.testBit_shiftRight,
    Nat.testBit_mod_two_pow, testBit_ff00, testBit_ff0000, testBit_ff]
  by_cases h32 : i < 32
  · by_cases h8 : i < 8 <;> by_cases h16 : i < 16 <;> by_cases h24 : i < 24 <;>
      first
      | (exfalso; omega)
      | (simp (disch := omega) only [decide_eq_true, decide_eq_false,
          Bool.and_true, Bool.true_and, Bool.false_and, Bool.and_false, Bool.or_false,
          Bool.false_or]; congr 1; omega)
  · simp (disch := omega) only [decide_eq_true, decide_eq_false,
          Bool.and_true, Bool.true_and, Bool.false_and, Bool.and_false, Bool.or_false,
          Bool.false_or]

/-! ## Bytes of a value -/

theorem testBit_byteOf (v k j : Nat) :
    (byteOf v k).val.testBit j = (decide (j < 8) && v.testBit (8 * k + j)) := by
  show ((v >>> (8 * k)) % 256).testBit j = _
  rw [show (256 : Nat) = 2 ^ 8 by norm_num, Nat.testBit_mod_two_pow, Nat.testBit_shiftRight]

/-- Two bytes are equal when their eight bits are. -/
theorem byteOf_eq_of_testBit (x y k l : Nat)
    (hb : ∀ j, j < 8 → x.testBit (8 * k + j) = y.testBit (8 * l + j)) :
    byteOf x k = byteOf y l := by
  apply Fin.ext
  apply Nat.eq_of_testBit_eq
  intro j
  rw [testBit_byteOf, testBit_byteOf]
  by_cases hj : j < 8
  · rw [hb j hj]
  · simp [hj]

theorem byteOf_flip64 (x k : Nat) (hk : k < 8) : byteOf (flip64 x) k = byteOf x (7 - k) := by
  apply byteOf_eq_of_testBit
  intro j hj
  rw [testBit_flip64, decide_eq_true (by omega), Bool.true_and]
  congr 1; omega

theorem byteOf_flip32 (x k : Nat) (hk : k < 4) : byteOf (flip32 x) k = byteOf x (3 - k) := by
  apply byteOf_eq_of_testBit
  intro j hj
  rw [testBit_flip32, decide_eq_true (by omega), Bool.true_and]
  congr 1; omega

theorem byteOf_flip16 (x k : Nat) (hk : k < 2) : byteOf (flip16 x) k = byteOf x (1 - k) := by
  apply byteOf_eq_of_testBit
  intro j hj
  rw [testBit_flip16, decide_eq_true (by omega), Bool.true_and]
  congr 1; split_ifs <;> omega

theorem byteOf_flip16_quad (x k : Nat) (hk : k < 8) :
    byteOf (flip16_quad x) k = byteOf x (k / 2 * 2 + (1 - k % 2)) := by
  apply byteOf_eq_of_testBit
  intro j hj
  rw [testBit_flip16_quad, decide_eq_true (by omega), Bool.true_and]
  congr 1; split_ifs <;> omega

theorem byteOf_flip32_dual (x k : Nat) (hk : k < 8) :
    byteOf (flip32_dual x) k = byteOf x (k / 4 * 4 + (3 - k % 4)) := by
  apply byteOf_eq_of_testBit
  intro j hj
  rw [testBit_flip32_dual, decide_eq_true (by omega), Bool.true_and]
  congr 1; omega

theorem byteOf_cons_zero (a : Byte) (r : Nat) : byteOf (a.val + 256 * r) 0 = a := by
  apply Fin.ext
  show ((a.val + 256 * r) >>> (8 * 0)) % 256 = a.val
  have := a.isLt
  simp only [Nat.mul_zero, Nat.shiftRight_zero]
  omega

theorem byteOf_cons_succ (a : Byte) (r k : Nat) :
    byteOf (a.val + 256 * r) (k + 1) = byteOf r k := by
  apply Fin.ext
  show ((a.val + 256 * r) >>> (8 * (k + 1))) % 256 = (r >>> (8 * k)) % 256
  have ha := a.isLt
  have e : 8 * (k + 1) = 8 + 8 * k := by ring
  rw [e, Nat.shiftRight_add, Nat.shiftRight_eq_div_pow (a.val + 256 * r) 8]
  have : (a.val + 256 * r) / 2 ^ 8 = r := by norm_num; omega
  rw [this]

theorem byteOf_loadLE (m : Mem) (w p k : Nat) (hk : k < w) :
    byteOf (loadLE m w p) k = m (p + k) := by
  induction w generalizing p k with
  | zero => omega
  | succ w ih =>
    cases k with
    | zero => simp [loadLE, byteOf_cons_zero]
    | succ k =>
      rw [loadLE, byteOf_cons_succ, ih (p + 1) k (by omega)]
      congr 1; omega

theorem byteOf_loadBE (m : Mem) (w p k : Nat) (hk : k < w) :
    byteOf (loadBE m w p) k = m (p + (w - 1 - k)) := by
  induction w generalizing k with
  | zero => omega
  | succ w ih =>
    cases k with
    | zero => simp [loadBE, byteOf_cons_zero]
    | succ k =>
      rw [loadBE, byteOf_cons_succ, ih k (by omega)]
      congr 2; omega

/-! ## One load, swap and store -/

theorem byteOf_load (h : ByteOrder) (m : Mem) (w p k : Nat) (hk : k < w) :
    byteOf (load h w m p) k
      = match h with
        | .little => m (p + k)
        | .big => m (p + (w - 1 - k)) := by
  cases h
  · exact byteOf_loadLE m w p k hk
  · exact byteOf_loadBE m w p k hk

theorem store_flip64_load (h : ByteOrder) (m : Mem) (o i : Nat) :
    store h 8 m o (flip64 (load h 8 m i)) = revCopy 8 m o i 8 := by
  funext a
  simp only [store, revCopy]
  split_ifs with hr
  · obtain ⟨j, rfl⟩ : ∃ j, a = o + j := ⟨a - o, by omega⟩
    have hj : j < 8 := by omega
    rw [Nat.add_sub_cancel_left]
    cases h
    · simp only [load]
      rw [byteOf_flip64 _ _ hj, byteOf_loadLE _ _ _ _ (by omega)]
      congr 2; omega
    · simp only [load]
      rw [byteOf_flip64 _ _ (by omega), byteOf_loadBE _ _ _ _ (by omega)]
      congr 2; omega
  · rfl

theorem store_flip32_dual_load (h : ByteOrder) (m : Mem) (o i : Nat) :
    store h 8 m o (flip32_dual (load h 8 m i)) = revCopy 4 m o i 8 := by
  funext a
  simp only [store, revCopy]
  split_ifs with hr
  · obtain ⟨j, rfl⟩ : ∃ j, a = o + j := ⟨a - o, by omega⟩
    have hj : j < 8 := by omega
    rw [Nat.add_sub_cancel_left]
    cases h
    · simp only [load]
      rw [byteOf_flip32_dual _ _ hj, byteOf_loadLE _ _ _ _ (by omega)]
    · simp only [load]
      rw [byteOf_flip32_dual _ _ (by omega), byteOf_loadBE _ _ _ _ (by omega)]
      congr 2; omega
  · rfl

theorem store_flip16_quad_load (h : ByteOrder) (m : Mem) (o i : Nat) :
    store h 8 m o (flip16_quad (load h 8 m i)) = revCopy 2 m o i 8 := by
  funext a
  simp only [store, revCopy]
  split_ifs with hr
  · obtain ⟨j, rfl⟩ : ∃ j, a = o + j := ⟨a - o, by omega⟩
    have hj : j < 8 := by omega
    rw [Nat.add_sub_cancel_left]
    cases h
    · simp only [load]
      rw [byteOf_flip16_quad _ _ hj, byteOf_loadLE _ _ _ _ (by omega)]
    · simp only [load]
      rw [byteOf_flip16_quad _ _ (by omega), byteOf_loadBE _ _ _ _ (by omega)]
      congr 2; omega
  · rfl

theorem store_flip32_load (h : ByteOrder) (m : Mem) (o i : Nat) :
    store h 4 m o (flip32 (load h 4 m i)) = revCopy 4 m o i 4 := by
  funext a
  simp only [store, revCopy]
  split_ifs with hr
  · obtain ⟨j, rfl⟩ : ∃ j, a = o + j := ⟨a - o, by omega⟩
    have hj : j < 4 := by omega
    rw [Nat.add_sub_cancel_left]
    cases h
    · simp only [load]
      rw [byteOf_flip32 _ _ hj, byteOf_loadLE _ _ _ _ (by omega)]
      congr 2; omega
    · simp only [load]
      rw [byteOf_flip32 _ _ (by omega), byteOf_loadBE _ _ _ _ (by omega)]
      congr 2; omega
  · rfl

theorem store_flip16_load (h : ByteOrder) (m : Mem) (o i : Nat) :
    store h 2 m o (flip16 (load h 2 m i)) = revCopy 2 m o i 2 := by
  funext a
  simp only [store, revCopy]
  split_ifs with hr
  · obtain ⟨j, rfl⟩ : ∃ j, a = o + j := ⟨a - o, by omega⟩
    have hj : j < 2 := by omega
    rw [Nat.add_sub_cancel_left]
    cases h
    · simp only [load]
      rw [byteOf_flip16 _ _ hj, byteOf_loadLE _ _ _ _ (by omega)]
      congr 2; omega
    · simp only [load]
      rw [byteOf_flip16 _ _ (by omega), byteOf_loadBE _ _ _ _ (by omega)]
      congr 2; omega
  · rfl

/-! ## The loops -/

theorem mirror_lt (w L j : Nat) (hw : 0 < w) (hd : w ∣ L) (hj : j < L) :
    j / w * w + (w - 1 - j % w) < L := by
  obtain ⟨q, rfl⟩ := hd
  have h1 : j / w < q := by
    rw [Nat.div_lt_iff_lt_mul hw, Nat.mul_comm]; exact hj
  have h2 : (j / w + 1) * w ≤ q * w := Nat.mul_le_mul_right w h1
  have h3 : (j / w + 1) * w = j / w * w + w := by ring
  have h4 : w * q = q * w := Nat.mul_comm _ _
  omega

theorem mirror_add (w L j : Nat) (hw : 0 < w) (hd : w ∣ L) :
    (L + j) / w * w + (w - 1 - (L + j) % w) = L + (j / w * w + (w - 1 - j % w)) := by
  obtain ⟨q, rfl⟩ := hd
  rw [Nat.mul_add_div hw, Nat.mul_add_mod, Nat.add_mul, Nat.mul_comm q w]
  omega

theorem revCopy_append (w : Nat) (m : Mem) (o i L1 L2 : Nat) (hw : 0 < w)
    (h1 : w ∣ L1) (h2 : w ∣ L2) (hdisj : i + (L1 + L2) ≤ o ∨ o + (L1 + L2) ≤ i) :
    revCopy w (revCopy w m o i L1) (o + L1) (i + L1) L2 = revCopy w m o i (L1 + L2) := by
  funext a
  by_cases ha2 : o + L1 ≤ a ∧ a < o + L1 + L2
  · obtain ⟨j, rfl⟩ : ∃ j, a = o + L1 + j := ⟨a - (o + L1), by omega⟩
    have hj : j < L2 := by omega
    have hm := mirror_lt w L2 j hw h2 hj
    have hadd := mirror_add w L1 j hw h1
    simp only [revCopy]
    rw [if_pos ha2, show o + L1 + j - (o + L1) = j by omega]
    generalize j / w * w + (w - 1 - j % w) = k at hm hadd ⊢
    rw [if_neg (by omega), if_pos (by omega), show o + L1 + j - o = L1 + j by omega, hadd]
    congr 1; omega
  · by_cases ha1 : o ≤ a ∧ a < o + L1
    · simp only [revCopy]
      rw [if_neg ha2, if_pos ha1, if_pos (by omega)]
    · simp only [revCopy]
      rw [if_neg ha2, if_neg ha1, if_neg (by omega)]

theorem chunkLoop_ptr (w W c : Nat) (s : Cursor) :
    (chunkLoop w W c s).ptr_in = s.ptr_in + c * W ∧
      (chunkLoop w W c s).ptr_out = s.ptr_out + c * W := by
  induction c generalizing s with
  | zero => simp [chunkLoop]
  | succ c ih =>
    rw [chunkLoop]
    obtain ⟨e1, e2⟩ := ih ⟨revCopy w s.mem s.ptr_out s.ptr_in W, s.ptr_in + W, s.ptr_out + W⟩
    rw [e1, e2]
    constructor <;> simp only [] <;> ring

theorem revCopy_frame (w : Nat) (m : Mem) (o i L a : Nat) (ha : a < o ∨ o + L ≤ a) :
    revCopy w m o i L a = m a := by
  simp only [revCopy]
  rw [if_neg (by omega)]

theorem chunkLoop_frame (w W c : Nat) (s : Cursor) (a : Nat)
    (ha : a < s.ptr_out ∨ s.ptr_out + c * W ≤ a) :
    (chunkLoop w W c s).mem a = s.mem a := by
  induction c generalizing s with
  | zero => rfl
  | succ c ih =>
    rw [chunkLoop, ih]
    · simp only []
      have e : (c + 1) * W = c * W + W := by ring
      exact revCopy_frame w s.mem _ _ W a (by omega)
    · simp only []
      have e : (c + 1) * W = c * W + W := by ring
      omega

theorem revCopy_zero (w : Nat) (m : Mem) (o i : Nat) : revCopy w m o i 0 = m := by
  funext a
  exact revCopy_frame w m o i 0 a (by omega)

theorem chunkLoop_mem (w W c : Nat) (s : Cursor) (hw : 0 < w) (hd : w ∣ W)
    (hdisj : s.ptr_in + c * W ≤ s.ptr_out ∨ s.ptr_out + c * W ≤ s.ptr_in) :
    (chunkLoop w W c s).mem = revCopy w s.mem s.ptr_out s.ptr_in (c * W) := by
  induction c generalizing s with
  | zero => simp [chunkLoop, revCopy_zero]
  | succ c ih =>
    have e : (c + 1) * W = W + c * W := by ring
    rw [chunkLoop, ih]
    · simp only []
      rw [e]
      exact revCopy_append w s.mem _ _ W (c * W) hw hd (Dvd.dvd.mul_left hd c)
        (by omega)
    · simp only []
      omega

theorem flip64_loop_eq (h : ByteOrder) (n : Nat) (s : Cursor) :
    flip64_loop h n s = chunkLoop 8 8 n s := by
  induction n generalizing s with
  | zero => rfl
  | succ n ih => rw [flip64_loop, chunkLoop, store_flip64_load, ih]

theorem flip32_bulk_eq (h : ByteOrder) (c : Nat) (s : Cursor) :
    flip32_bulk h c s = chunkLoop 4 8 c s := by
  induction c generalizing s with
  | zero => rfl
  | succ c ih => rw [flip32_bulk, chunkLoop, store_flip32_dual_load, ih]

theorem flip16_bulk_eq (h : ByteOrder) (c : Nat) (s : Cursor) :
    flip16_bulk h c s = chunkLoop 2 8 c s := by
  induction c generalizing s with
  | zero => rfl
  | succ c ih => rw [flip16_bulk, chunkLoop, store_flip16_quad_load, ih]

theorem flip16_tail_eq (h : ByteOrder) (c : Nat) (s : Cursor) :
    flip16_tail h c s = chunkLoop 2 2 c s := by
  induction c generalizing s with
  | zero => rfl
  | succ c ih => rw [flip16_tail, chunkLoop, store_flip16_load, ih]

/-! ## The kernels as chunk loops -/

theorem cpymem_flip64_eq (h : ByteOrder) (m : Mem) (out inp n : Nat) :
    cpymem_flip64 h m out inp n = (chunkLoop 8 8 n ⟨m, inp, out⟩).mem := by
  rw [cpymem_flip64, flip64_loop_eq]

theorem cpymem_flip32_eq (h : ByteOrder) (m : Mem) (out inp n : Nat) :
    cpymem_flip32 h m out inp n
      = (chunkLoop 4 4 (n % 2) (chunkLoop 4 8 (n / 2) ⟨m, inp, out⟩)).mem := by
  simp only [cpymem_flip32, flip32_bulk_eq, store_flip32_load]
  rcases Nat.mod_two_eq_zero_or_one n with h0 | h1
  · rw [h0]; simp [chunkLoop]
  · rw [h1]; simp [chunkLoop]

theorem cpymem_flip16_eq (h : ByteOrder) (m : Mem) (out inp n : Nat) :
    cpymem_flip16 h m out inp n
      = (chunkLoop 2 2 (n % 4) (chunkLoop 2 8 (n / 4) ⟨m, inp, out⟩)).mem := by
  have hr : n % 4 % 2 ^ 16 = n % 4 := Nat.mod_eq_of_lt (by omega)
  simp only [cpymem_flip16, flip16_bulk_eq, flip16_tail_eq, hr]
  split_ifs with h0
  · rfl
  · have : n % 4 = 0 := by omega
    rw [this]; rfl

/-- Two chunk loops in a row mirror the elements of the whole span, when source
and destination span do not overlap. -/
theorem chunkLoop_two_mem (w W1 W2 c1 c2 : Nat) (s : Cursor) (hw : 0 < w)
    (hd1 : w ∣ W1) (hd2 : w ∣ W2)
    (hdisj : s.ptr_in + (c1 * W1 + c2 * W2) ≤ s.ptr_out ∨
      s.ptr_out + (c1 * W1 + c2 * W2) ≤ s.ptr_in) :
    (chunkLoop w W2 c2 (chunkLoop w W1 c1 s)).mem
      = revCopy w s.mem s.ptr_out s.ptr_in (c1 * W1 + c2 * W2) := by
  obtain ⟨e1, e2⟩ := chunkLoop_ptr w W1 c1 s
  rw [chunkLoop_mem w W2 c2 _ hw hd2 (by rw [e1, e2]; omega), e1, e2,
    chunkLoop_mem w W1 c1 s hw hd1 (by omega)]
  exact revCopy_append w s.mem _ _ _ _ hw (Dvd.dvd.mul_left hd1 c1) (Dvd.dvd.mul_left hd2 c2)
    hdisj

/-- Two chunk loops in a row leave every byte outside the destination span. -/
theorem chunkLoop_two_frame (w W1 W2 c1 c2 : Nat) (s : Cursor) (a : Nat)
    (ha : a < s.ptr_out ∨ s.ptr_out + (c1 * W1 + c2 * W2) ≤ a) :
    (chunkLoop w W2 c2 (chunkLoop w W1 c1 s)).mem a = s.mem a := by
  obtain ⟨e1, e2⟩ := chunkLoop_ptr w W1 c1 s
  rw [chunkLoop_frame w W2 c2 _ a (by rw [e2]; omega),
    chunkLoop_frame w W1 c1 s a (by omega)]

theorem cpymem_flip16_spec (h : ByteOrder) (m : Mem) (out inp n : Nat)
    (hdisj : inp + 2 * n ≤ out ∨ out + 2 * n ≤ inp) :
    cpymem_flip16 h m out inp n = revCopy 2 m out inp (2 * n) := by
  have e : n / 4 * 8 + n % 4 * 2 = 2 * n := by omega
  rw [cpymem_flip16_eq,
    chunkLoop_two_mem 2 8 2 (n / 4) (n % 4) ⟨m, inp, out⟩ (by norm_num) (by norm_num)
      (by norm_num) (by simp only []; omega), e]

theorem cpymem_flip32_spec (h : ByteOrder) (m : Mem) (out inp n : Nat)
    (hdisj : inp + 4 * n ≤ out ∨ out + 4 * n ≤ inp) :
    cpymem_flip32 h m out inp n = revCopy 4 m out inp (4 * n) := by
  have e : n / 2 * 8 + n % 2 * 4 = 4 * n := by omega
  rw [cpymem_flip32_eq,
    chunkLoop_two_mem 4 8 4 (n / 2) (n % 2) ⟨m, inp, out⟩ (by norm_num) (by norm_num)
      (by norm_num) (by simp only []; omega), e]

theorem cpymem_flip64_spec (h : ByteOrder) (m : Mem) (out inp n : Nat)
    (hdisj : inp + 8 * n ≤ out ∨ out + 8 * n ≤ inp) :
    cpymem_flip64 h m out inp n = revCopy 8 m out inp (8 * n) := by
  rw [cpymem_flip64_eq,
    chunkLoop_mem 8 8 n ⟨m, inp, out⟩ (by norm_num) (by norm_num) (by simp only []; omega),
    Nat.mul_comm]

theorem cpymem_flip16_frame (h : ByteOrder) (m : Mem) (out inp n a : Nat)
    (ha : a < out ∨ out + 2 * n ≤ a) : cpymem_flip16 h m out inp n a = m a := by
  rw [cpymem_flip16_eq]
  exact chunkLoop_two_frame 2 8 2 (n / 4) (n % 4) ⟨m, inp, out⟩ a (by simp only []; omega)

theorem cpymem_flip32_frame (h : ByteOrder) (m : Mem) (out inp n a : Nat)
    (ha : a < out ∨ out + 4 * n ≤ a) : cpymem_flip32 h m out inp n a = m a := by
  rw [cpymem_flip32_eq]
  exact chunkLoop_two_frame 4 8 4 (n / 2) (n % 2) ⟨m, inp, out⟩ a (by simp only []; omega)

theorem cpymem_flip64_frame (h : ByteOrder) (m : Mem) (out inp n a : Nat)
    (ha : a < out ∨ out + 8 * n ≤ a) : cpymem_flip64 h m out inp n a = m a := by
  rw [cpymem_flip64_eq]
  exact chunkLoop_frame 8 8 n ⟨m, inp, out⟩ a (by simp only []; omega)

/-! ## The entry point -/

theorem toNat_emod_cast (n : Nat) (hn : n < 2 ^ 64) : ((n : Int) % 2 ^ 64).toNat = n := by
  omega

theorem resolve_fst (base : Nat → Nat) (e e' : Env) (array : Option Nat)
    (address offset : Int) :
    (resolve base e array address offset).1 = (resolve base e' array address offset).1 := by
  cases array <;> rfl

theorem resolve_mem (base : Nat → Nat) (e : Env) (array : Option Nat)
    (address offset : Int) : (resolve base e array address offset).2.mem = e.mem := by
  cases array <;> rfl

theorem unpin_mem (e : Env) (array : Option Nat) (p : Nat) (offset : Int) :
    (unpin e array p offset).mem = e.mem := by
  cases array <;> rfl

theorem copyMemory_of_some (h : ByteOrder) (base : Nat → Nat) (e : Env)
    (arrayIn : Option Nat) (addressIn offsetIn : Int)
    (arrayOut : Option Nat) (addressOut offsetOut : Int)
    (dataSize count srcE dstE : Int) (m' : Mem)
    (hd : dispatch h e.mem (resolve base e arrayOut addressOut offsetOut).1
      (resolve base e arrayIn addressIn offsetIn).1 dataSize count srcE dstE = some m') :
    (copyMemory h base e arrayIn addressIn offsetIn arrayOut addressOut offsetOut
        dataSize count srcE dstE).1 = CPYMEM_ERRNO_OK ∧
      (copyMemory h base e arrayIn addressIn offsetIn arrayOut addressOut offsetOut
        dataSize count srcE dstE).2.mem = m' := by
  unfold copyMemory
  simp only [resolve_mem]
  rw [resolve_fst base (resolve base e arrayIn addressIn offsetIn).2 e arrayOut, hd]
  exact ⟨rfl, by simp only [unpin_mem]⟩

theorem copyMemory_of_none (h : ByteOrder) (base : Nat → Nat) (e : Env)
    (arrayIn : Option Nat) (addressIn offsetIn : Int)
    (arrayOut : Option Nat) (addressOut offsetOut : Int)
    (dataSize count srcE dstE : Int)
    (hd : dispatch h e.mem (resolve base e arrayOut addressOut offsetOut).1
      (resolve base e arrayIn addressIn offsetIn).1 dataSize count srcE dstE = none) :
    copyMemory h base e arrayIn addressIn offsetIn arrayOut addressOut offsetOut
        dataSize count srcE dstE
      = (CPYMEM_ERRNO_INVALID_DATASIZE,
          (resolve base (resolve base e arrayIn addressIn offsetIn).2
            arrayOut addressOut offsetOut).2) := by
  unfold copyMemory
  simp only [resolve_mem]
  rw [resolve_fst base (resolve base e arrayIn addressIn offsetIn).2 e arrayOut, hd]

/-- The pinning log of a call that reaches the end of the function: the
acquisitions of the present arrays, then the release of the source array and the
release of the destination array. -/
theorem copyMemory_pins_of_some (h : ByteOrder) (base : Nat → Nat) (e : Env)
    (arrayIn : Option Nat) (addressIn offsetIn : Int)
    (arrayOut : Option Nat) (addressOut offsetOut : Int)
    (dataSize count srcE dstE : Int) (m' : Mem)
    (hd : dispatch h e.mem (resolve base e arrayOut addressOut offsetOut).1
      (resolve base e arrayIn addressIn offsetIn).1 dataSize count srcE dstE = some m') :
    (copyMemory h base e arrayIn addressIn offsetIn arrayOut addressOut offsetOut
        dataSize count srcE dstE).2.pins
      = (unpin (unpin (resolve base (resolve base e arrayIn addressIn offsetIn).2
            arrayOut addressOut offsetOut).2
          arrayIn (resolve base e arrayIn addressIn offsetIn).1 offsetIn)
        arrayOut (resolve base e arrayOut addressOut offsetOut).1 offsetOut).pins := by
  unfold copyMemory
  simp only [resolve_mem]
  rw [resolve_fst base (resolve base e arrayIn addressIn offsetIn).2 e arrayOut, hd]
  cases arrayIn <;> cases arrayOut <;> rfl

theorem dispatch_flip (h : ByteOrder) (m : Mem) (out inp w n : Nat) (srcE dstE : Int)
    (hw : w = 2 ∨ w = 4 ∨ w = 8) (hn : n < 2 ^ 64) (hE : srcE ≠ dstE)
    (hdisj : inp + w * n ≤ out ∨ out + w * n ≤ inp) :
    dispatch h m out inp (w : Int) (n : Int) srcE dstE = some (revCopy w m out inp (w * n)) := by
  unfold dispatch
  rw [toNat_emod_cast n hn]
  rcases hw with rfl | rfl | rfl
  · rw [if_neg (by simp [hE]), if_pos (by norm_num), cpymem_flip16_spec h m out inp n hdisj]
  · rw [if_neg (by simp [hE]), if_neg (by norm_num), if_pos (by norm_num),
      cpymem_flip32_spec h m out inp n hdisj]
  · rw [if_neg (by simp [hE]), if_neg (by norm_num), if_neg (by norm_num), if_pos (by norm_num),
      cpymem_flip64_spec h m out inp n hdisj]

theorem dispatch_memcpy (h : ByteOrder) (m : Mem) (out inp : Nat) (dataSize count srcE dstE : Int)
    (hc : srcE = dstE ∨ dataSize = 1) :
    dispatch h m out inp dataSize count srcE dstE
      = some (memcpy m out inp ((dataSize * count) % 2 ^ 64).toNat) := by
  unfold dispatch
  rw [if_pos hc]

theorem revCopy_elem (w : Nat) (m : Mem) (out inp n i k : Nat) (hi : i < n) (hk : k < w) :
    revCopy w m out inp (w * n) (out + (i * w + k)) = m (inp + (i * w + (w - 1 - k))) := by
  have hlt : i * w + k < w * n := by
    have : (i + 1) * w ≤ n * w := Nat.mul_le_mul_right w hi
    have e1 : (i + 1) * w = i * w + w := by ring
    have e2 : n * w = w * n := Nat.mul_comm _ _
    omega
  simp only [revCopy]
  rw [if_pos (by omega), Nat.add_sub_cancel_left]
  have hw : 0 < w := by omega
  have e1 : (i * w + k) / w = i := by
    rw [Nat.mul_comm, Nat.mul_add_div hw, Nat.div_eq_of_lt hk, Nat.add_zero]
  have e2 : (i * w + k) % w = k := by
    rw [Nat.mul_comm, Nat.mul_add_mod, Nat.mod_eq_of_lt hk]
  rw [e1, e2]

/-- C1. Element-local reversal: for an element width `w` of 2, 4 or 8, a count
`n` in the range of `jlong`, differing endian tags, any host byte order and any
combination of raw addresses and pinned arrays, when the source span and the
destination span of `w * n` bytes do not overlap, the call returns `OK` and byte
`k` of element `i` of the destination is byte `w - 1 - k` of element `i` of the
source as it was before the call. -/
theorem copyMemory_reverses_each_element (h : ByteOrder) (base : Nat → Nat) (e : Env)
    (arrayIn : Option Nat) (addressIn offsetIn : Int)
    (arrayOut : Option Nat) (addressOut offsetOut : Int)
    (w n : Nat) (srcE dstE : Int)
    (hw : w = 2 ∨ w = 4 ∨ w = 8) (hn : n < 2 ^ 63) (hE : srcE ≠ dstE)
    (hdisj : (resolve base e arrayIn addressIn offsetIn).1 + w * n
          ≤ (resolve base e arrayOut addressOut offsetOut).1 ∨
        (resolve base e arrayOut addressOut offsetOut).1 + w * n
          ≤ (resolve base e arrayIn addressIn offsetIn).1) :
    (copyMemory h base e arrayIn addressIn offsetIn arrayOut addressOut offsetOut
        w n srcE dstE).1 = CPYMEM_ERRNO_OK ∧
      ∀ i k, i < n → k < w →
        (copyMemory h base e arrayIn addressIn offsetIn arrayOut addressOut offsetOut
            w n srcE dstE).2.mem
          ((resolve base e arrayOut addressOut offsetOut).1 + (i * w + k))
        = e.mem ((resolve base e arrayIn addressIn offsetIn).1 + (i * w + (w - 1 - k))) := by
  obtain ⟨h1, h2⟩ := copyMemory_of_some h base e arrayIn addressIn offsetIn arrayOut addressOut
    offsetOut w n srcE dstE _
    (dispatch_flip h e.mem _ _ w n srcE dstE hw (by omega) hE hdisj)
  refine ⟨h1, ?_⟩
  intro i k hi hk
  rw [h2, revCopy_elem w e.mem _ _ n i k hi hk]

/-- C1, scenario 1 of the spec: `w = 2`, `n = 3` on `01 02 03 04 05 06`; element 1
of the destination starts with the second byte of element 1 of the source. -/
theorem copyMemory_reverses_each_element_witness :
    (copyMemory ByteOrder.little (fun _ => 0) ⟨memOfList 0 [1, 2, 3, 4, 5, 6], []⟩
        none 0 0 none 64 0 (2 : Nat) (3 : Nat) 0 1).2.mem
      ((resolve (fun _ => 0) ⟨memOfList 0 [1, 2, 3, 4, 5, 6], []⟩ none 64 0).1 + (1 * 2 + 0))
    = (memOfList 0 [1, 2, 3, 4, 5, 6])
      ((resolve (fun _ => 0) ⟨memOfList 0 [1, 2, 3, 4, 5, 6], []⟩ none 0 0).1
        + (1 * 2 + (2 - 1 - 0))) :=
  (copyMemory_reverses_each_element ByteOrder.little (fun _ => 0)
    ⟨memOfList 0 [1, 2, 3, 4, 5, 6], []⟩ none 0 0 none 64 0 2 3 0 1
    (by decide) (by decide) (by decide) (by decide)).2 1 0 (by decide) (by decide)


/-- Scenario 1 of the spec: `w = 2`, `n = 3` on `01 02 03 04 05 06` gives
`02 01 04 03 06 05`, on a little-endian and on a big-endian host. -/
theorem scenario_width2_count3 (h : ByteOrder) :
    bytesAt (copyMemory h (fun _ => 0) ⟨memOfList 0 [1, 2, 3, 4, 5, 6], []⟩
        none 0 0 none 64 0 2 3 0 1).2.mem 64 6 = [2, 1, 4, 3, 6, 5] := by
  cases h <;> decide

/-- Scenario 2 of the spec: `w = 4`, `n = 1` on `DE AD BE EF` gives `EF BE AD DE`. -/
theorem scenario_width4_count1 (h : ByteOrder) :
    bytesAt (copyMemory h (fun _ => 0) ⟨memOfList 0 [0xDE, 0xAD, 0xBE, 0xEF], []⟩
        none 0 0 none 64 0 4 1 0 1).2.mem 64 4 = [0xEF, 0xBE, 0xAD, 0xDE] := by
  cases h <;> decide

/-- Scenario 3 of the spec: `w = 8`, `n = 2` on `00 11 .. 77 88 99 .. FF` gives
`77 .. 11 00 FF .. 99 88`. -/
theorem scenario_width8_count2 (h : ByteOrder) :
    bytesAt (copyMemory h (fun _ => 0)
        ⟨memOfList 0 [0x00, 0x11, 0x22, 0x33, 0x44, 0x55, 0x66, 0x77,
          0x88, 0x99, 0xAA, 0xBB, 0xCC, 0xDD, 0xEE, 0xFF], []⟩
        none 0 0 none 64 0 8 2 0 1).2.mem 64 16
      = [0x77, 0x66, 0x55, 0x44, 0x33, 0x22, 0x11, 0x00,
          0xFF, 0xEE, 0xDD, 0xCC, 0xBB, 0xAA, 0x99, 0x88] := by
  cases h <;> decide

theorem memcpy_elem (m : Mem) (out inp size j : Nat) (hj : j < size) :
    memcpy m out inp size (out + j) = m (inp + j) := by
  simp only [memcpy]
  rw [if_pos (by omega), Nat.add_sub_cancel_left]

theorem memcpy_frame (m : Mem) (out inp size a : Nat) (ha : a < out ∨ out + size ≤ a) :
    memcpy m out inp size a = m a := by
  simp only [memcpy]
  rw [if_neg (by omega)]

theorem toNat_mul_emod_cast (w n : Nat) (h : w * n < 2 ^ 64) :
    (((w : Int) * (n : Int)) % 2 ^ 64).toNat = w * n := by
  rw [← Nat.cast_mul]
  exact toNat_emod_cast (w * n) h

/-- C2. Identity under equal endianness: for an element width `w` of 1, 2, 4 or
8, any count `n` whose span of `w * n` bytes fits the 64-bit address space (as
every byte sequence held in memory does), the same endian tag `E` on both sides,
any host byte order and any combination of raw addresses and pinned arrays, the
call returns `OK` and the first `w * n` bytes of the destination are the first
`w * n` bytes the source had before the call. -/
theorem copyMemory_equal_endianness_copies (h : ByteOrder) (base : Nat → Nat) (e : Env)
    (arrayIn : Option Nat) (addressIn offsetIn : Int)
    (arrayOut : Option Nat) (addressOut offsetOut : Int)
    (w n : Nat) (E : Int)
    (hw : w = 1 ∨ w = 2 ∨ w = 4 ∨ w = 8) (hfit : w * n < 2 ^ 64) :
    (copyMemory h base e arrayIn addressIn offsetIn arrayOut addressOut offsetOut
        w n E E).1 = CPYMEM_ERRNO_OK ∧
      ∀ j, j < w * n →
        (copyMemory h base e arrayIn addressIn offsetIn arrayOut addressOut offsetOut
            w n E E).2.mem ((resolve base e arrayOut addressOut offsetOut).1 + j)
        = e.mem ((resolve base e arrayIn addressIn offsetIn).1 + j) := by
  have _ := hw
  obtain ⟨h1, h2⟩ := copyMemory_of_some h base e arrayIn addressIn offsetIn arrayOut addressOut
    offsetOut w n E E _ (dispatch_memcpy h e.mem _ _ w n E E (Or.inl rfl))
  refine ⟨h1, ?_⟩
  intro j hj
  rw [h2, toNat_mul_emod_cast w n hfit, memcpy_elem _ _ _ _ j hj]

/-- C2 at `w = 4`, `n = 2`, tag 7 on both sides, both regions pinned arrays (at
100 and at 200), byte 6. -/
theorem copyMemory_equal_endianness_copies_witness :
    (copyMemory ByteOrder.big (fun a => 100 * a)
        ⟨memOfList 100 [1, 2, 3, 4, 5, 6, 7, 8], []⟩
        (some 1) 0 0 (some 2) 0 0 (4 : Nat) (2 : Nat) 7 7).1 = CPYMEM_ERRNO_OK ∧
        (copyMemory ByteOrder.big (fun a => 100 * a)
            ⟨memOfList 100 [1, 2, 3, 4, 5, 6, 7, 8], []⟩
            (some 1) 0 0 (some 2) 0 0 (4 : Nat) (2 : Nat) 7 7).2.mem
          ((resolve (fun a => 100 * a) ⟨memOfList 100 [1, 2, 3, 4, 5, 6, 7, 8], []⟩
            (some 2) 0 0).1 + 6)
        = (memOfList 100 [1, 2, 3, 4, 5, 6, 7, 8])
          ((resolve (fun a => 100 * a) ⟨memOfList 100 [1, 2, 3, 4, 5, 6, 7, 8], []⟩
            (some 1) 0 0).1 + 6) :=
  ⟨(copyMemory_equal_endianness_copies ByteOrder.big (fun a => 100 * a)
      ⟨memOfList 100 [1, 2, 3, 4, 5, 6, 7, 8], []⟩ (some 1) 0 0 (some 2) 0 0 4 2 7
      (by decide) (by decide)).1,
    (copyMemory_equal_endianness_copies ByteOrder.big (fun a => 100 * a)
      ⟨memOfList 100 [1, 2, 3, 4, 5, 6, 7, 8], []⟩ (some 1) 0 0 (some 2) 0 0 4 2 7
      (by decide) (by decide)).2 6 (by decide)⟩

theorem dispatch_invalid (h : ByteOrder) (m : Mem) (out inp : Nat)
    (dataSize count srcE dstE : Int) (hE : srcE ≠ dstE)
    (h1 : dataSize ≠ 1) (h2 : dataSize ≠ 2) (h4 : dataSize ≠ 4) (h8 : dataSize ≠ 8) :
    dispatch h m out inp dataSize count srcE dstE = none := by
  unfold dispatch
  rw [if_neg (by simp [hE, h1]), if_neg h2, if_neg h4, if_neg h8]

/-- C3, as stated, fails: with `w = 3`, `n = 10` and equal endian tags the call
returns `OK`, not `INVALID_DATASIZE`, and it overwrites the sentinel `0xEE` at the
start of the destination with the first source byte. -/
theorem copyMemory_width3_equal_tags_is_copied :
    (copyMemory ByteOrder.little (fun _ => 0)
        ⟨memOfList 0 ([1, 2, 3] ++ List.replicate 61 0 ++ List.replicate 30 0xEE), []⟩
        none 0 0 none 64 0 3 10 0 0).1 = CPYMEM_ERRNO_OK ∧
      (copyMemory ByteOrder.little (fun _ => 0)
        ⟨memOfList 0 ([1, 2, 3] ++ List.replicate 61 0 ++ List.replicate 30 0xEE), []⟩
        none 0 0 none 64 0 3 10 0 0).1 ≠ CPYMEM_ERRNO_INVALID_DATASIZE ∧
      (memOfList 0 ([1, 2, 3] ++ List.replicate 61 0 ++ List.replicate 30 0xEE)) 64 = 0xEE ∧
      (copyMemory ByteOrder.little (fun _ => 0)
        ⟨memOfList 0 ([1, 2, 3] ++ List.replicate 61 0 ++ List.replicate 30 0xEE), []⟩
        none 0 0 none 64 0 3 10 0 0).2.mem 64 = 1 := by
  decide

/-- C3, amended: for every element width outside {1, 2, 4, 8} (zero and negative
values included), every count and every pair of differing endian tags, the call
returns `INVALID_DATASIZE` and the whole memory, the destination region
included, is what it was before the call. -/
theorem copyMemory_invalid_width_differing_tags (h : ByteOrder) (base : Nat → Nat) (e : Env)
    (arrayIn : Option Nat) (addressIn offsetIn : Int)
    (arrayOut : Option Nat) (addressOut offsetOut : Int)
    (dataSize count srcE dstE : Int) (hE : srcE ≠ dstE)
    (h1 : dataSize ≠ 1) (h2 : dataSize ≠ 2) (h4 : dataSize ≠ 4) (h8 : dataSize ≠ 8) :
    (copyMemory h base e arrayIn addressIn offsetIn arrayOut addressOut offsetOut
        dataSize count srcE dstE).1 = CPYMEM_ERRNO_INVALID_DATASIZE ∧
      (copyMemory h base e arrayIn addressIn offsetIn arrayOut addressOut offsetOut
        dataSize count srcE dstE).2.mem = e.mem := by
  rw [copyMemory_of_none h base e arrayIn addressIn offsetIn arrayOut addressOut offsetOut
    dataSize count srcE dstE (dispatch_invalid h e.mem _ _ dataSize count srcE dstE hE h1 h2 h4 h8)]
  exact ⟨rfl, by simp only [resolve_mem]⟩

/-- C3 amended, at the scenario of the spec: `w = 3`, `n = 10`, tags 0 and 1. -/
theorem copyMemory_invalid_width_differing_tags_witness :
    (copyMemory ByteOrder.little (fun _ => 0)
        ⟨memOfList 64 (List.replicate 30 0xEE), []⟩
        none 0 0 none 64 0 3 10 0 1).1 = CPYMEM_ERRNO_INVALID_DATASIZE ∧
      (copyMemory ByteOrder.little (fun _ => 0)
        ⟨memOfList 64 (List.replicate 30 0xEE), []⟩
        none 0 0 none 64 0 3 10 0 1).2.mem = memOfList 64 (List.replicate 30 0xEE) :=
  copyMemory_invalid_width_differing_tags ByteOrder.little (fun _ => 0)
    ⟨memOfList 64 (List.replicate 30 0xEE), []⟩ none 0 0 none 64 0 3 10 0 1
    (by decide) (by decide) (by decide) (by decide) (by decide)

/-- C4 fails on the code: with both arrays present, `w = 3` and differing tags the
call returns `INVALID_DATASIZE` with both arrays acquired and neither released. -/
theorem copyMemory_invalid_width_leaves_arrays_pinned :
    (copyMemory ByteOrder.little (fun a => 1000 * a) ⟨fun _ => 0, []⟩
        (some 1) 0 0 (some 2) 0 0 3 10 0 1).1 = CPYMEM_ERRNO_INVALID_DATASIZE ∧
      (copyMemory ByteOrder.little (fun a => 1000 * a) ⟨fun _ => 0, []⟩
        (some 1) 0 0 (some 2) 0 0 3 10 0 1).2.pins
        = [PinEvent.acquire 1, PinEvent.acquire 2] := by
  decide


theorem mirror_mirror (w j : Nat) (hw : 0 < w) :
    (j / w * w + (w - 1 - j % w)) / w * w + (w - 1 - (j / w * w + (w - 1 - j % w)) % w) = j := by
  have hlt : j % w < w := Nat.mod_lt j hw
  have hk : w - 1 - j % w < w := by omega
  have e1 : (j / w * w + (w - 1 - j % w)) / w = j / w := by
    rw [Nat.mul_comm, Nat.mul_add_div hw, Nat.div_eq_of_lt hk, Nat.add_zero]
  have e2 : (j / w * w + (w - 1 - j % w)) % w = w - 1 - j % w := by
    rw [Nat.mul_comm, Nat.mul_add_mod, Nat.mod_eq_of_lt hk]
  have e3 : j / w * w + j % w = j := by
    rw [Nat.mul_comm]; exact Nat.div_add_mod j w
  rw [e1, e2]
  omega

/-- Mirroring twice, through an intermediate span, gives back the source. -/
theorem revCopy_revCopy (w : Nat) (m : Mem) (s d d' L j : Nat) (hw : 0 < w) (hd : w ∣ L)
    (hj : j < L) :
    revCopy w (revCopy w m d s L) d' d L (d' + j) = m (s + j) := by
  have hm := mirror_lt w L j hw hd hj
  have hmm := mirror_mirror w j hw
  simp only [revCopy]
  rw [if_pos (by omega), Nat.add_sub_cancel_left]
  generalize j / w * w + (w - 1 - j % w) = k at hm hmm ⊢
  rw [if_pos (by omega), Nat.add_sub_cancel_left, hmm]

/-- C5. Involution: for an element width `w` of 2, 4 or 8 and a count `n` in the
range of `jlong`, copying the source to a destination `D` with differing tags
and then copying `D` to a second destination with the same width, the same
count and differing tags leaves in the second destination the `w * n` bytes the
source had at the start (the spans of each copy do not overlap). -/
theorem copyMemory_twice_restores (h : ByteOrder) (base : Nat → Nat) (e : Env)
    (arrayIn : Option Nat) (addressIn offsetIn : Int)
    (arrayOut : Option Nat) (addressOut offsetOut : Int)
    (arrayOut2 : Option Nat) (addressOut2 offsetOut2 : Int)
    (w n : Nat) (srcE dstE srcE2 dstE2 : Int)
    (hw : w = 2 ∨ w = 4 ∨ w = 8) (hn : n < 2 ^ 63) (hE : srcE ≠ dstE) (hE2 : srcE2 ≠ dstE2)
    (hdisj : (resolve base e arrayIn addressIn offsetIn).1 + w * n
          ≤ (resolve base e arrayOut addressOut offsetOut).1 ∨
        (resolve base e arrayOut addressOut offsetOut).1 + w * n
          ≤ (resolve base e arrayIn addressIn offsetIn).1)
    (hdisj2 : (resolve base e arrayOut addressOut offsetOut).1 + w * n
          ≤ (resolve base e arrayOut2 addressOut2 offsetOut2).1 ∨
        (resolve base e arrayOut2 addressOut2 offsetOut2).1 + w * n
          ≤ (resolve base e arrayOut addressOut offsetOut).1) :
    ∀ j, j < w * n →
      (copyMemory h base
          (copyMemory h base e arrayIn addressIn offsetIn arrayOut addressOut offsetOut
            w n srcE dstE).2
          arrayOut addressOut offsetOut arrayOut2 addressOut2 offsetOut2
          w n srcE2 dstE2).2.mem
        ((resolve base e arrayOut2 addressOut2 offsetOut2).1 + j)
      = e.mem ((resolve base e arrayIn addressIn offsetIn).1 + j) := by
  intro j hj
  obtain ⟨_, h2⟩ := copyMemory_of_some h base e arrayIn addressIn offsetIn arrayOut addressOut
    offsetOut w n srcE dstE _
    (dispatch_flip h e.mem _ _ w n srcE dstE hw (by omega) hE hdisj)
  have hw0 : 0 < w := by omega
  generalize copyMemory h base e arrayIn addressIn offsetIn arrayOut addressOut offsetOut
    w n srcE dstE = r at h2 ⊢
  rw [resolve_fst base e r.2 arrayOut2, resolve_fst base e r.2 arrayOut] at hdisj2
  obtain ⟨_, h3⟩ := copyMemory_of_some h base r.2 arrayOut addressOut offsetOut arrayOut2
    addressOut2 offsetOut2 w n srcE2 dstE2 _
    (dispatch_flip h r.2.mem _ _ w n srcE2 dstE2 hw (by omega) hE2 hdisj2)
  rw [h3, h2, resolve_fst base e r.2 arrayOut2, resolve_fst base r.2 e arrayOut]
  exact revCopy_revCopy w e.mem _ _ _ (w * n) j hw0 (Dvd.intro n rfl) hj

/-- C5 at `w = 4`, `n = 3`: twelve bytes at 0 copied to 64 and from there to
128; byte 5 of the second destination is byte 5 of the source. -/
theorem copyMemory_twice_restores_witness :
    5 < 4 * 3 ∧
      (copyMemory ByteOrder.little (fun _ => 0)
          (copyMemory ByteOrder.little (fun _ => 0)
            ⟨memOfList 0 [1, 2, 3, 4, 5, 6, 7, 8, 9, 10, 11, 12], []⟩
            none 0 0 none 64 0 (4 : Nat) (3 : Nat) 0 1).2
          none 64 0 none 128 0 (4 : Nat) (3 : Nat) 0 1).2.mem
        ((resolve (fun _ => 0) ⟨memOfList 0 [1, 2, 3, 4, 5, 6, 7, 8, 9, 10, 11, 12], []⟩
          none 128 0).1 + 5)
      = (memOfList 0 [1, 2, 3, 4, 5, 6, 7, 8, 9, 10, 11, 12])
        ((resolve (fun _ => 0) ⟨memOfList 0 [1, 2, 3, 4, 5, 6, 7, 8, 9, 10, 11, 12], []⟩
          none 0 0).1 + 5) :=
  ⟨by decide,
    copyMemory_twice_restores ByteOrder.little (fun _ => 0)
      ⟨memOfList 0 [1, 2, 3, 4, 5, 6, 7, 8, 9, 10, 11, 12], []⟩
      none 0 0 none 64 0 none 128 0 4 3 0 1 0 1
      (by decide) (by decide) (by decide) (by decide) (by decide) (by decide) 5 (by decide)⟩


theorem dispatch_frame (h : ByteOrder) (m : Mem) (out inp w n : Nat) (srcE dstE : Int)
    (hw : w = 1 ∨ w = 2 ∨ w = 4 ∨ w = 8) (hn : n < 2 ^ 63) :
    ∃ m', dispatch h m out inp (w : Int) (n : Int) srcE dstE = some m' ∧
      ∀ a, a < out ∨ out + w * n ≤ a → m' a = m a := by
  by_cases hc : srcE = dstE ∨ (w : Int) = 1
  · refine ⟨_, dispatch_memcpy h m out inp w n srcE dstE hc, ?_⟩
    intro a ha
    have hle : (((w : Int) * (n : Int)) % 2 ^ 64).toNat ≤ w * n := by
      rw [← Nat.cast_mul]
      omega
    exact memcpy_frame m out inp _ a (by omega)
  · have hE : srcE ≠ dstE := fun hh => hc (Or.inl hh)
    have h1 : w ≠ 1 := fun hh => hc (Or.inr (by rw [hh]; rfl))
    unfold dispatch
    rw [toNat_emod_cast n (by omega), if_neg hc]
    rcases hw with rfl | rfl | rfl | rfl
    · exact absurd rfl h1
    · rw [if_pos (by norm_num)]
      exact ⟨_, rfl, fun a ha => cpymem_flip16_frame h m out inp n a ha⟩
    · rw [if_neg (by norm_num), if_pos (by norm_num)]
      exact ⟨_, rfl, fun a ha => cpymem_flip32_frame h m out inp n a ha⟩
    · rw [if_neg (by norm_num), if_neg (by norm_num), if_pos (by norm_num)]
      exact ⟨_, rfl, fun a ha => cpymem_flip64_frame h m out inp n a ha⟩

theorem revCopy_inside (w : Nat) (m : Mem) (out inp len j : Nat) (hj : j < len) :
    revCopy w m out inp len (out + j) = m (inp + (j / w * w + (w - 1 - j % w))) := by
  simp only [revCopy]
  rw [if_pos (by omega), Nat.add_sub_cancel_left]

/-- C6. Exact span: for an element width `w` of 1, 2, 4 or 8, a count `n` in the
range of `jlong` and any pair of endian tags, the call writes the `w * n` bytes
of the destination span and nothing else. Nothing else: every byte below the
resolved destination pointer and every byte at offset `w * n` or more from it is
the same after the call as before; when the source span does not overlap the
destination span no source byte changes; for `n = 0` the whole memory is
unchanged. All of the span, for every `n` (so also when `n` is not a multiple of
the batch size and the residual loop has to finish the work): on spans that do
not overlap, whatever the destination held before, each of its `w * n` bytes
holds after the call a byte of the source, the mirrored byte of the same element
when a kernel runs (differing tags, `w` of 2, 4 or 8) and the byte at the same
offset when the plain copy runs (equal tags or `w = 1`, the span fitting the
64-bit address space). -/
theorem copyMemory_writes_only_destination_span (h : ByteOrder) (base : Nat → Nat) (e : Env)
    (arrayIn : Option Nat) (addressIn offsetIn : Int)
    (arrayOut : Option Nat) (addressOut offsetOut : Int)
    (w n : Nat) (srcE dstE : Int)
    (hw : w = 1 ∨ w = 2 ∨ w = 4 ∨ w = 8) (hn : n < 2 ^ 63) :
    (∀ a, a < (resolve base e arrayOut addressOut offsetOut).1 ∨
          (resolve base e arrayOut addressOut offsetOut).1 + w * n ≤ a →
        (copyMemory h base e arrayIn addressIn offsetIn arrayOut addressOut offsetOut
          w n srcE dstE).2.mem a = e.mem a) ∧
      ((resolve base e arrayIn addressIn offsetIn).1 + w * n
            ≤ (resolve base e arrayOut addressOut offsetOut).1 ∨
          (resolve base e arrayOut addressOut offsetOut).1 + w * n
            ≤ (resolve base e arrayIn addressIn offsetIn).1 →
        ∀ j, j < w * n →
          (copyMemory h base e arrayIn addressIn offsetIn arrayOut addressOut offsetOut
            w n srcE dstE).2.mem ((resolve base e arrayIn addressIn offsetIn).1 + j)
          = e.mem ((resolve base e arrayIn addressIn offsetIn).1 + j)) ∧
      (n = 0 →
        (copyMemory h base e arrayIn addressIn offsetIn arrayOut addressOut offsetOut
          w n srcE dstE).2.mem = e.mem) ∧
      ((resolve base e arrayIn addressIn offsetIn).1 + w * n
            ≤ (resolve base e arrayOut addressOut offsetOut).1 ∨
          (resolve base e arrayOut addressOut offsetOut).1 + w * n
            ≤ (resolve base e arrayIn addressIn offsetIn).1 →
        (srcE ≠ dstE → w ≠ 1 → ∀ j, j < w * n →
          (copyMemory h base e arrayIn addressIn offsetIn arrayOut addressOut offsetOut
            w n srcE dstE).2.mem ((resolve base e arrayOut addressOut offsetOut).1 + j)
          = e.mem ((resolve base e arrayIn addressIn offsetIn).1
              + (j / w * w + (w - 1 - j % w)))) ∧
        (srcE = dstE ∨ w = 1 → w * n < 2 ^ 64 → ∀ j, j < w * n →
          (copyMemory h base e arrayIn addressIn offsetIn arrayOut addressOut offsetOut
            w n srcE dstE).2.mem ((resolve base e arrayOut addressOut offsetOut).1 + j)
          = e.mem ((resolve base e arrayIn addressIn offsetIn).1 + j))) := by
  obtain ⟨m', hd, hf⟩ := dispatch_frame h e.mem
    (resolve base e arrayOut addressOut offsetOut).1
    (resolve base e arrayIn addressIn offsetIn).1 w n srcE dstE hw hn
  obtain ⟨_, h2⟩ := copyMemory_of_some h base e arrayIn addressIn offsetIn arrayOut addressOut
    offsetOut w n srcE dstE m' hd
  rw [h2]
  refine ⟨hf, ?_, ?_, ?_⟩
  · intro hdisj j hj
    exact hf _ (by omega)
  · intro h0
    funext a
    exact hf a (by rw [h0]; omega)
  · intro hdisj
    constructor
    · intro hE h1 j hj
      have hw3 : w = 2 ∨ w = 4 ∨ w = 8 := by omega
      have hk := dispatch_flip h e.mem (resolve base e arrayOut addressOut offsetOut).1
        (resolve base e arrayIn addressIn offsetIn).1 w n srcE dstE hw3 (by omega) hE hdisj
      rw [hd] at hk
      rw [Option.some.inj hk, revCopy_inside w e.mem _ _ (w * n) j hj]
    · intro hc hfit j hj
      have hc2 : srcE = dstE ∨ (w : Int) = 1 := by
        rcases hc with hc | hc
        · exact Or.inl hc
        · exact Or.inr (by rw [hc]; rfl)
      have hk := dispatch_memcpy h e.mem (resolve base e arrayOut addressOut offsetOut).1
        (resolve base e arrayIn addressIn offsetIn).1 w n srcE dstE hc2
      rw [hd] at hk
      rw [Option.some.inj hk, toNat_mul_emod_cast w n hfit, memcpy_elem _ _ _ _ j hj]

/-- C6 at `w = 2`, `n = 5` (one batch of four and one residual element), tags 0
and 1, source at 0 and destination at 64: the byte at 74, the first one after
the destination span, keeps its value, and the byte at 73, the last one of the
element left to the residual loop, holds the source byte at 8. -/
theorem copyMemory_writes_only_destination_span_witness :
    (copyMemory ByteOrder.little (fun _ => 0)
        ⟨memOfList 0 [1, 2, 3, 4, 5, 6, 7, 8, 9, 10], []⟩
        none 0 0 none 64 0 (2 : Nat) (5 : Nat) 0 1).2.mem 74
      = (memOfList 0 [1, 2, 3, 4, 5, 6, 7, 8, 9, 10]) 74 ∧
      (copyMemory ByteOrder.little (fun _ => 0)
        ⟨memOfList 0 [1, 2, 3, 4, 5, 6, 7, 8, 9, 10], []⟩
        none 0 0 none 64 0 (2 : Nat) (5 : Nat) 0 1).2.mem
          ((resolve (fun _ => 0) ⟨memOfList 0 [1, 2, 3, 4, 5, 6, 7, 8, 9, 10], []⟩
            none 64 0).1 + 9)
      = (memOfList 0 [1, 2, 3, 4, 5, 6, 7, 8, 9, 10])
          ((resolve (fun _ => 0) ⟨memOfList 0 [1, 2, 3, 4, 5, 6, 7, 8, 9, 10], []⟩
            none 0 0).1 + (9 / 2 * 2 + (2 - 1 - 9 % 2))) :=
  ⟨(copyMemory_writes_only_destination_span ByteOrder.little (fun _ => 0)
      ⟨memOfList 0 [1, 2, 3, 4, 5, 6, 7, 8, 9, 10], []⟩
      none 0 0 none 64 0 2 5 0 1 (by decide) (by decide)).1 74 (by decide),
    ((copyMemory_writes_only_destination_span ByteOrder.little (fun _ => 0)
      ⟨memOfList 0 [1, 2, 3, 4, 5, 6, 7, 8, 9, 10], []⟩
      none 0 0 none 64 0 2 5 0 1 (by decide) (by decide)).2.2.2 (by decide)).1
      (by decide) (by decide) 9 (by decide)⟩

/-- C7. Width-1 insensitivity: for element width 1, a count `n` in the range of
`jlong` and any pair of endian tags, equal or not, the call returns `OK` and
the first `n` bytes of the destination are the first `n` bytes the source had
before the call. -/
theorem copyMemory_width_one_copies (h : ByteOrder) (base : Nat → Nat) (e : Env)
    (arrayIn : Option Nat) (addressIn offsetIn : Int)
    (arrayOut : Option Nat) (addressOut offsetOut : Int)
    (n : Nat) (srcE dstE : Int) (hn : n < 2 ^ 63) :
    (copyMemory h base e arrayIn addressIn offsetIn arrayOut addressOut offsetOut
        1 n srcE dstE).1 = CPYMEM_ERRNO_OK ∧
      ∀ j, j < n →
        (copyMemory h base e arrayIn addressIn offsetIn arrayOut addressOut offsetOut
            1 n srcE dstE).2.mem ((resolve base e arrayOut addressOut offsetOut).1 + j)
        = e.mem ((resolve base e arrayIn addressIn offsetIn).1 + j) := by
  obtain ⟨h1, h2⟩ := copyMemory_of_some h base e arrayIn addressIn offsetIn arrayOut addressOut
    offsetOut 1 n srcE dstE _ (dispatch_memcpy h e.mem _ _ 1 n srcE dstE (Or.inr rfl))
  refine ⟨h1, ?_⟩
  intro j hj
  have hs : ((1 : Int) * (n : Int) % 2 ^ 64).toNat = n := by omega
  rw [h2, hs, memcpy_elem _ _ _ _ j hj]

/-- C7, scenario 5 of the spec: `w = 1`, `n = 4`, tags 0 and 1 on `11 22 33 44`,
last byte. -/
theorem copyMemory_width_one_copies_witness :
    (copyMemory ByteOrder.little (fun _ => 0) ⟨memOfList 0 [0x11, 0x22, 0x33, 0x44], []⟩
        none 0 0 none 64 0 1 (4 : Nat) 0 1).1 = CPYMEM_ERRNO_OK ∧
        (copyMemory ByteOrder.little (fun _ => 0) ⟨memOfList 0 [0x11, 0x22, 0x33, 0x44], []⟩
            none 0 0 none 64 0 1 (4 : Nat) 0 1).2.mem
          ((resolve (fun _ => 0) ⟨memOfList 0 [0x11, 0x22, 0x33, 0x44], []⟩ none 64 0).1 + 3)
        = (memOfList 0 [0x11, 0x22, 0x33, 0x44])
          ((resolve (fun _ => 0) ⟨memOfList 0 [0x11, 0x22, 0x33, 0x44], []⟩ none 0 0).1 + 3) :=
  ⟨(copyMemory_width_one_copies ByteOrder.little (fun _ => 0)
      ⟨memOfList 0 [0x11, 0x22, 0x33, 0x44], []⟩ none 0 0 none 64 0 4 0 1 (by decide)).1,
    (copyMemory_width_one_copies ByteOrder.little (fun _ => 0)
      ⟨memOfList 0 [0x11, 0x22, 0x33, 0x44], []⟩ none 0 0 none 64 0 4 0 1 (by decide)).2 3
      (by decide)⟩

/-- C8. Host-endianness independence: each of the kernels `cpymem_flip16`,
`cpymem_flip32` and `cpymem_flip64` leaves the same memory, for every count,
every pair of pointers and every initial memory, whether its 16, 32 and 64-bit
loads and stores assemble bytes in little-endian or in big-endian order. -/
theorem kernels_independent_of_host_byte_order (m : Mem) (out inp n : Nat) :
    cpymem_flip16 ByteOrder.little m out inp n = cpymem_flip16 ByteOrder.big m out inp n ∧
      cpymem_flip32 ByteOrder.little m out inp n = cpymem_flip32 ByteOrder.big m out inp n ∧
      cpymem_flip64 ByteOrder.little m out inp n = cpymem_flip64 ByteOrder.big m out inp n := by
  refine ⟨?_, ?_, ?_⟩
  · rw [cpymem_flip16_eq, cpymem_flip16_eq]
  · rw [cpymem_flip32_eq, cpymem_flip32_eq]
  · rw [cpymem_flip64_eq, cpymem_flip64_eq]


theorem flip16_lt (x : Nat) : flip16 x < 2 ^ 16 :=
  Nat.mod_lt _ (by norm_num)

theorem flip32_lt (x : Nat) : flip32 x < 2 ^ 32 := by
  apply Nat.lt_pow_two_of_testBit
  intro i hi
  rw [testBit_flip32, decide_eq_false (by omega), Bool.false_and]

theorem flip64_lt (x : Nat) : flip64 x < 2 ^ 64 := by
  apply Nat.lt_pow_two_of_testBit
  intro i hi
  rw [testBit_flip64, decide_eq_false (by omega), Bool.false_and]

/-- C9. The scalar swap primitives reverse bytes: `flip16 x` is a 16-bit value
whose byte `k` is byte `1 - k` of `x`, `flip32 x` is a 32-bit value whose byte
`k` is byte `3 - k` of `x`, and `flip64 x` is a 64-bit value whose byte `k` is
byte `7 - k` of `x` (the result of `flip16` is taken after the conversion of the
promoted `int` to 16 bits). -/
theorem flip_primitives_reverse_bytes (x k : Nat) :
    (flip16 x < 2 ^ 16 ∧ (k < 2 → byteOf (flip16 x) k = byteOf x (1 - k))) ∧
      (flip32 x < 2 ^ 32 ∧ (k < 4 → byteOf (flip32 x) k = byteOf x (3 - k))) ∧
      (flip64 x < 2 ^ 64 ∧ (k < 8 → byteOf (flip64 x) k = byteOf x (7 - k))) :=
  ⟨⟨flip16_lt x, byteOf_flip16 x k⟩, ⟨flip32_lt x, byteOf_flip32 x k⟩,
    ⟨flip64_lt x, byteOf_flip64 x k⟩⟩

/-- C9 at `x = 0x1122`, `0x11223344` and `0x1122334455667788`, byte 1. -/
theorem flip_primitives_reverse_bytes_witness :
    byteOf (flip16 0x1122) 1 = byteOf 0x1122 (1 - 1) ∧
      byteOf (flip32 0x11223344) 1 = byteOf 0x11223344 (3 - 1) ∧
      byteOf (flip64 0x1122334455667788) 1 = byteOf 0x1122334455667788 (7 - 1) :=
  ⟨(flip_primitives_reverse_bytes 0x1122 1).1.2 (by decide),
    (flip_primitives_reverse_bytes 0x11223344 1).2.1.2 (by decide),
    (flip_primitives_reverse_bytes 0x1122334455667788 1).2.2.2 (by decide)⟩

theorem testBit_lane16 (v j i : Nat) :
    (lane16 v j).testBit i = (decide (i < 16) && v.testBit (16 * j + i)) := by
  unfold lane16
  rw [Nat.testBit_mod_two_pow, Nat.testBit_shiftRight]

theorem lane16_flip16_quad (x j : Nat) (hj : j < 4) :
    lane16 (flip16_quad x) j = flip16 (lane16 x j) := by
  apply Nat.eq_of_testBit_eq
  intro i
  rw [testBit_lane16, testBit_flip16, testBit_flip16_quad, testBit_lane16]
  by_cases h16 : i < 16
  · by_cases h8 : i < 8
    · rw [if_pos h8, if_pos (by omega), decide_eq_true h16, decide_eq_true (by omega),
        decide_eq_true (by omega), Nat.add_assoc]
    · rw [if_neg h8, if_neg (by omega), decide_eq_true h16, decide_eq_true (by omega),
        decide_eq_true (by omega), Nat.add_sub_assoc (by omega)]
  · simp (disch := omega) only [decide_eq_false, Bool.false_and]

/-- C10. The lane contract of `flip16_quad`: for each of the four lanes `j`, the
16-bit lane `j` of `flip16_quad x` is `flip16` of the 16-bit lane `j` of `x`;
hence two words that agree on lane `j` give results that agree on lane `j`,
whatever their other lanes hold. -/
theorem flip16_quad_lanes (x j : Nat) (hj : j < 4) :
    lane16 (flip16_quad x) j = flip16 (lane16 x j) ∧
      ∀ y, lane16 y j = lane16 x j → lane16 (flip16_quad y) j = lane16 (flip16_quad x) j := by
  refine ⟨lane16_flip16_quad x j hj, ?_⟩
  intro y hy
  rw [lane16_flip16_quad y j hj, lane16_flip16_quad x j hj, hy]

/-- C10 at `x = 0x1122334455667788`, lane 2. -/
theorem flip16_quad_lanes_witness :
    lane16 (flip16_quad 0x1122334455667788) 2 = flip16 (lane16 0x1122334455667788 2) :=
  (flip16_quad_lanes 0x1122334455667788 2 (by decide)).1

theorem testBit_lane32 (v j i : Nat) :
    (lane32 v j).testBit i = (decide (i < 32) && v.testBit (32 * j + i)) := by
  unfold lane32
  rw [Nat.testBit_mod_two_pow, Nat.testBit_shiftRight]

theorem lane32_flip32_dual (x j : Nat) (hj : j < 2) :
    lane32 (flip32_dual x) j = flip32 (lane32 x j) := by
  apply Nat.eq_of_testBit_eq
  intro i
  rw [testBit_lane32, testBit_flip32, testBit_flip32_dual, testBit_lane32]
  by_cases h32 : i < 32
  · rw [decide_eq_true h32, decide_eq_true (by omega), decide_eq_true (by omega)]
    simp only [Bool.true_and]
    congr 1; omega
  · simp (disch := omega) only [decide_eq_false, Bool.false_and]

/-- C11. The lane contract of `flip32_dual`: the low 32 bits of `flip32_dual x`
are `flip32` of the low 32 bits of `x` and the high 32 bits of `flip32_dual x`
are `flip32` of the high 32 bits of `x`; two words that agree on one lane give
results that agree on that lane, whatever the other lane holds. -/
theorem flip32_dual_lanes (x : Nat) :
    lane32 (flip32_dual x) 0 = flip32 (lane32 x 0) ∧
      lane32 (flip32_dual x) 1 = flip32 (lane32 x 1) ∧
      ∀ y j, j < 2 → lane32 y j = lane32 x j →
        lane32 (flip32_dual y) j = lane32 (flip32_dual x) j := by
  refine ⟨lane32_flip32_dual x 0 (by norm_num), lane32_flip32_dual x 1 (by norm_num), ?_⟩
  intro y j hj hy
  rw [lane32_flip32_dual y j hj, lane32_flip32_dual x j hj, hy]

/-- C11 at `x = 0x1122334455667788` and `y = 0xAABBCCDD55667788`, which agree on
lane 0. -/
theorem flip32_dual_lanes_witness :
    lane32 (flip32_dual 0xAABBCCDD55667788) 0 = lane32 (flip32_dual 0x1122334455667788) 0 :=
  (flip32_dual_lanes 0x1122334455667788).2.2 0xAABBCCDD55667788 0 (by decide) (by decide)

theorem eq_of_testBit_below (x y n : Nat) (hx : x < 2 ^ n) (hy : y < 2 ^ n)
    (hb : ∀ i, i < n → x.testBit i = y.testBit i) : x = y := by
  apply Nat.eq_of_testBit_eq
  intro i
  by_cases hi : i < n
  · exact hb i hi
  · have hp : 2 ^ n ≤ 2 ^ i := Nat.pow_le_pow_right (by norm_num) (by omega)
    rw [Nat.testBit_lt_two_pow (lt_of_lt_of_le hx hp),
      Nat.testBit_lt_two_pow (lt_of_lt_of_le hy hp)]

theorem flip16_quad_lt (x : Nat) : flip16_quad x < 2 ^ 64 := by
  apply Nat.lt_pow_two_of_testBit
  intro i hi
  rw [testBit_flip16_quad, decide_eq_false (by omega), Bool.false_and]

theorem flip32_dual_lt (x : Nat) : flip32_dual x < 2 ^ 64 := by
  apply Nat.lt_pow_two_of_testBit
  intro i hi
  rw [testBit_flip32_dual, decide_eq_false (by omega), Bool.false_and]

theorem flip16_flip16 (x : Nat) (hx : x < 2 ^ 16) : flip16 (flip16 x) = x := by
  apply eq_of_testBit_below _ _ 16 (flip16_lt _) hx
  intro i hi
  rw [testBit_flip16, testBit_flip16, decide_eq_true hi, Bool.true_and]
  by_cases h8 : i < 8
  · rw [if_pos h8, if_neg (by omega), decide_eq_true (by omega), Bool.true_and]
    congr 1
  · rw [if_neg h8, if_pos (by omega), decide_eq_true (by omega), Bool.true_and]
    congr 1; omega

theorem flip32_flip32 (x : Nat) (hx : x < 2 ^ 32) : flip32 (flip32 x) = x := by
  apply eq_of_testBit_below _ _ 32 (flip32_lt _) hx
  intro i hi
  rw [testBit_flip32, testBit_flip32, decide_eq_true hi, Bool.true_and,
    decide_eq_true (by omega), Bool.true_and]
  congr 1; omega

theorem flip64_flip64 (x : Nat) (hx : x < 2 ^ 64) : flip64 (flip64 x) = x := by
  apply eq_of_testBit_below _ _ 64 (flip64_lt _) hx
  intro i hi
  rw [testBit_flip64, testBit_flip64, decide_eq_true hi, Bool.true_and,
    decide_eq_true (by omega), Bool.true_and]
  congr 1; omega

theorem flip16_quad_flip16_quad (x : Nat) (hx : x < 2 ^ 64) :
    flip16_quad (flip16_quad x) = x := by
  apply eq_of_testBit_below _ _ 64 (flip16_quad_lt _) hx
  intro i hi
  rw [testBit_flip16_quad, testBit_flip16_quad, decide_eq_true hi, Bool.true_and]
  by_cases h8 : i % 16 < 8
  · rw [if_pos h8, if_neg (by omega), decide_eq_true (by omega), Bool.true_and]
    congr 1
  · rw [if_neg h8, if_pos (by omega), decide_eq_true (by omega), Bool.true_and]
    congr 1; omega

theorem flip32_dual_flip32_dual (x : Nat) (hx : x < 2 ^ 64) :
    flip32_dual (flip32_dual x) = x := by
  apply eq_of_testBit_below _ _ 64 (flip32_dual_lt _) hx
  intro i hi
  rw [testBit_flip32_dual, testBit_flip32_dual, decide_eq_true hi, Bool.true_and,
    decide_eq_true (by omega), Bool.true_and]
  congr 1; omega

/-- C19. Each swap primitive is an involution on its input width: for a 16-bit
`x`, `flip16 (flip16 x) = x`; for a 32-bit `x`, `flip32 (flip32 x) = x`; for a
64-bit `x`, `flip64 (flip64 x) = x`, `flip16_quad (flip16_quad x) = x` and
`flip32_dual (flip32_dual x) = x`. -/
theorem flip_primitives_are_involutions (x : Nat) :
    (x < 2 ^ 16 → flip16 (flip16 x) = x) ∧
      (x < 2 ^ 32 → flip32 (flip32 x) = x) ∧
      (x < 2 ^ 64 →
        flip64 (flip64 x) = x ∧ flip16_quad (flip16_quad x) = x ∧
          flip32_dual (flip32_dual x) = x) :=
  ⟨flip16_flip16 x, flip32_flip32 x,
    fun hx => ⟨flip64_flip64 x hx, flip16_quad_flip16_quad x hx, flip32_dual_flip32_dual x hx⟩⟩

/-- C19 at `x = 0xBEEF` for the three widths. -/
theorem flip_primitives_are_involutions_witness :
    flip16 (flip16 0xBEEF) = 0xBEEF ∧ flip32 (flip32 0xBEEF) = 0xBEEF ∧
      (flip64 (flip64 0xBEEF) = 0xBEEF ∧ flip16_quad (flip16_quad 0xBEEF) = 0xBEEF ∧
        flip32_dual (flip32_dual 0xBEEF) = 0xBEEF) :=
  ⟨(flip_primitives_are_involutions 0xBEEF).1 (by decide),
    (flip_primitives_are_involutions 0xBEEF).2.1 (by decide),
    (flip_primitives_are_involutions 0xBEEF).2.2 (by decide)⟩

/-- C20. The `strerror` accessor ignores its argument: for the same host
`strerror`, the same conversion to a Java string and the same value of `errno`,
any two arguments `err1` and `err2` give the same string, and it is the message
for the current `errno`. -/
theorem strerror_ignores_its_argument {α β : Type} (strerror : Int → α)
    (NewStringUTF : α → β) (errno err1 err2 : Int) :
    Java_me_devcexx_accessors_AccessorNatives_strerror strerror NewStringUTF errno err1
        = Java_me_devcexx_accessors_AccessorNatives_strerror strerror NewStringUTF errno err2 ∧
      Java_me_devcexx_accessors_AccessorNatives_strerror strerror NewStringUTF errno err1
        = NewStringUTF (strerror errno) :=
  ⟨rfl, rfl⟩

theorem dispatch_eq_none_iff (h : ByteOrder) (m : Mem) (out inp : Nat)
    (dataSize count srcE dstE : Int) :
    dispatch h m out inp dataSize count srcE dstE = none ↔
      srcE ≠ dstE ∧ dataSize ≠ 1 ∧ dataSize ≠ 2 ∧ dataSize ≠ 4 ∧ dataSize ≠ 8 := by
  constructor
  · intro hd
    unfold dispatch at hd
    split_ifs at hd with h1 h2 h4 h8
    exact ⟨fun hh => h1 (Or.inl hh), fun hh => h1 (Or.inr hh), h2, h4, h8⟩
  · rintro ⟨hE, h1, h2, h4, h8⟩
    exact dispatch_invalid h m out inp dataSize count srcE dstE hE h1 h2 h4 h8

/-- The status is `INVALID_DATASIZE` exactly when the dispatch takes its last
`else` branch. -/
theorem copyMemory_status (h : ByteOrder) (base : Nat → Nat) (e : Env)
    (arrayIn : Option Nat) (addressIn offsetIn : Int)
    (arrayOut : Option Nat) (addressOut offsetOut : Int)
    (dataSize count srcE dstE : Int) :
    (copyMemory h base e arrayIn addressIn offsetIn arrayOut addressOut offsetOut
        dataSize count srcE dstE).1
      = if (dispatch h e.mem (resolve base e arrayOut addressOut offsetOut).1
          (resolve base e arrayIn addressIn offsetIn).1 dataSize count srcE dstE).isNone
        then CPYMEM_ERRNO_INVALID_DATASIZE else CPYMEM_ERRNO_OK := by
  cases hd : dispatch h e.mem (resolve base e arrayOut addressOut offsetOut).1
      (resolve base e arrayIn addressIn offsetIn).1 dataSize count srcE dstE with
  | none =>
    rw [copyMemory_of_none h base e arrayIn addressIn offsetIn arrayOut addressOut offsetOut
      dataSize count srcE dstE hd]
    rfl
  | some m' =>
    rw [(copyMemory_of_some h base e arrayIn addressIn offsetIn arrayOut addressOut offsetOut
      dataSize count srcE dstE m' hd).1]
    rfl

theorem status_codes_differ : CPYMEM_ERRNO_OK ≠ CPYMEM_ERRNO_INVALID_DATASIZE := by
  decide

/-- C17. The exact rejection condition of the code: the call returns
`INVALID_DATASIZE` if and only if the endian tags differ and the element width is
none of 1, 2, 4, 8; and with equal tags, for every positive element width `w`
(widths such as 3 included) and every count `n` whose span of `w * n` bytes fits
the 64-bit address space, the call returns `OK` and the first `w * n` bytes of
the destination are the first `w * n` bytes the source had before the call. -/
theorem copyMemory_rejects_iff_tags_differ_and_width_invalid (h : ByteOrder)
    (base : Nat → Nat) (e : Env)
    (arrayIn : Option Nat) (addressIn offsetIn : Int)
    (arrayOut : Option Nat) (addressOut offsetOut : Int)
    (dataSize count srcE dstE : Int) (w n : Nat) (E : Int) :
    ((copyMemory h base e arrayIn addressIn offsetIn arrayOut addressOut offsetOut
          dataSize count srcE dstE).1 = CPYMEM_ERRNO_INVALID_DATASIZE ↔
        srcE ≠ dstE ∧ dataSize ≠ 1 ∧ dataSize ≠ 2 ∧ dataSize ≠ 4 ∧ dataSize ≠ 8) ∧
      (0 < w → w * n < 2 ^ 64 →
        (copyMemory h base e arrayIn addressIn offsetIn arrayOut addressOut offsetOut
            w n E E).1 = CPYMEM_ERRNO_OK ∧
          ∀ j, j < w * n →
            (copyMemory h base e arrayIn addressIn offsetIn arrayOut addressOut offsetOut
                w n E E).2.mem ((resolve base e arrayOut addressOut offsetOut).1 + j)
            = e.mem ((resolve base e arrayIn addressIn offsetIn).1 + j)) := by
  constructor
  · rw [copyMemory_status, ← dispatch_eq_none_iff h e.mem
      (resolve base e arrayOut addressOut offsetOut).1
      (resolve base e arrayIn addressIn offsetIn).1 dataSize count srcE dstE,
      ← Option.isNone_iff_eq_none]
    constructor
    · intro hs
      by_contra hd
      rw [if_neg hd] at hs
      exact status_codes_differ hs
    · intro hd
      rw [if_pos hd]
  · intro _ hfit
    obtain ⟨h1, h2⟩ := copyMemory_of_some h base e arrayIn addressIn offsetIn arrayOut
      addressOut offsetOut w n E E _ (dispatch_memcpy h e.mem _ _ w n E E (Or.inl rfl))
    refine ⟨h1, ?_⟩
    intro j hj
    rw [h2, toNat_mul_emod_cast w n hfit, memcpy_elem _ _ _ _ j hj]

/-- C17 at `w = 3`, `n = 10`, tag 5 on both sides: the call returns `OK` and byte
29 of the destination is byte 29 of the source. -/
theorem copyMemory_rejects_iff_tags_differ_and_width_invalid_witness :
    (copyMemory ByteOrder.little (fun _ => 0) ⟨memOfList 0 (List.range 30), []⟩
        none 0 0 none 64 0 (3 : Nat) (10 : Nat) 5 5).1 = CPYMEM_ERRNO_OK ∧
      (copyMemory ByteOrder.little (fun _ => 0) ⟨memOfList 0 (List.range 30), []⟩
          none 0 0 none 64 0 (3 : Nat) (10 : Nat) 5 5).2.mem
        ((resolve (fun _ => 0) ⟨memOfList 0 (List.range 30), []⟩ none 64 0).1 + 29)
      = (memOfList 0 (List.range 30))
        ((resolve (fun _ => 0) ⟨memOfList 0 (List.range 30), []⟩ none 0 0).1 + 29) :=
  ⟨((copyMemory_rejects_iff_tags_differ_and_width_invalid ByteOrder.little (fun _ => 0)
      ⟨memOfList 0 (List.range 30), []⟩ none 0 0 none 64 0 3 10 0 1 3 10 5).2
      (by decide) (by decide)).1,
    ((copyMemory_rejects_iff_tags_differ_and_width_invalid ByteOrder.little (fun _ => 0)
      ⟨memOfList 0 (List.range 30), []⟩ none 0 0 none 64 0 3 10 0 1 3 10 5).2
      (by decide) (by decide)).2 29 (by decide)⟩

theorem copyMemory_mem_eq (h : ByteOrder) (base : Nat → Nat) (e : Env)
    (arrayIn : Option Nat) (addressIn offsetIn : Int)
    (arrayOut : Option Nat) (addressOut offsetOut : Int)
    (dataSize count srcE dstE : Int) :
    (copyMemory h base e arrayIn addressIn offsetIn arrayOut addressOut offsetOut
        dataSize count srcE dstE).2.mem
      = (dispatch h e.mem (resolve base e arrayOut addressOut offsetOut).1
          (resolve base e arrayIn addressIn offsetIn).1 dataSize count srcE dstE).getD e.mem := by
  cases hd : dispatch h e.mem (resolve base e arrayOut addressOut offsetOut).1
      (resolve base e arrayIn addressIn offsetIn).1 dataSize count srcE dstE with
  | none =>
    rw [copyMemory_of_none h base e arrayIn addressIn offsetIn arrayOut addressOut offsetOut
      dataSize count srcE dstE hd]
    simp only [resolve_mem, Option.getD_none]
  | some m' =>
    rw [(copyMemory_of_some h base e arrayIn addressIn offsetIn arrayOut addressOut offsetOut
      dataSize count srcE dstE m' hd).2]
    rfl

theorem resolve_none_fst (base : Nat → Nat) (e : Env) (address offset : Int) :
    ((resolve base e none address offset).1 : Int) = (address + offset) % 2 ^ 64 := by
  show ((ptrAdd (ptrOfLong address) offset : Nat) : Int) = _
  unfold ptrAdd ptrOfLong
  omega

theorem resolve_some_fst (base : Nat → Nat) (e : Env) (a : Nat) (address offset : Int) :
    ((resolve base e (some a) address offset).1 : Int) = ((base a : Int) + offset) % 2 ^ 64 := by
  show ((ptrAdd (base a) offset : Nat) : Int) = _
  unfold ptrAdd
  omega

/-- C16. Region resolution: with no array the pointer of a region is the raw
address plus the offset, with an array it is the base returned by the pinning
acquire plus the offset (both as 64-bit pointers); with an array present the raw
address has no influence on the result of the call, for the source and for the
destination; and the memory after the call is the one the dispatch produces at
these two pointers. -/
theorem copyMemory_region_resolution (h : ByteOrder) (base : Nat → Nat) (e : Env)
    (arrayIn : Option Nat) (addressIn offsetIn : Int)
    (arrayOut : Option Nat) (addressOut offsetOut : Int)
    (dataSize count srcE dstE : Int) (a : Nat) (address address2 offset : Int) :
    ((resolve base e none address offset).1 : Int) = (address + offset) % 2 ^ 64 ∧
      ((resolve base e (some a) address offset).1 : Int)
        = ((base a : Int) + offset) % 2 ^ 64 ∧
      copyMemory h base e (some a) address offsetIn arrayOut addressOut offsetOut
          dataSize count srcE dstE
        = copyMemory h base e (some a) address2 offsetIn arrayOut addressOut offsetOut
          dataSize count srcE dstE ∧
      copyMemory h base e arrayIn addressIn offsetIn (some a) address offsetOut
          dataSize count srcE dstE
        = copyMemory h base e arrayIn addressIn offsetIn (some a) address2 offsetOut
          dataSize count srcE dstE ∧
      (copyMemory h base e arrayIn addressIn offsetIn arrayOut addressOut offsetOut
          dataSize count srcE dstE).2.mem
        = (dispatch h e.mem (resolve base e arrayOut addressOut offsetOut).1
            (resolve base e arrayIn addressIn offsetIn).1
            dataSize count srcE dstE).getD e.mem :=
  ⟨resolve_none_fst base e address offset, resolve_some_fst base e a address offset,
    rfl, rfl, copyMemory_mem_eq h base e arrayIn addressIn offsetIn arrayOut addressOut
      offsetOut dataSize count srcE dstE⟩

theorem dispatch_ne_none_of_ok (h : ByteOrder) (base : Nat → Nat) (e : Env)
    (arrayIn : Option Nat) (addressIn offsetIn : Int)
    (arrayOut : Option Nat) (addressOut offsetOut : Int)
    (dataSize count srcE dstE : Int)
    (hok : (copyMemory h base e arrayIn addressIn offsetIn arrayOut addressOut offsetOut
        dataSize count srcE dstE).1 = CPYMEM_ERRNO_OK) :
    ∃ m', dispatch h e.mem (resolve base e arrayOut addressOut offsetOut).1
      (resolve base e arrayIn addressIn offsetIn).1 dataSize count srcE dstE = some m' := by
  cases hd : dispatch h e.mem (resolve base e arrayOut addressOut offsetOut).1
      (resolve base e arrayIn addressIn offsetIn).1 dataSize count srcE dstE with
  | none =>
    rw [copyMemory_of_none h base e arrayIn addressIn offsetIn arrayOut addressOut offsetOut
      dataSize count srcE dstE hd] at hok
    exact absurd hok.symm status_codes_differ
  | some m' => exact ⟨m', rfl⟩

theorem ptrSub_ptrAdd (p : Nat) (off : Int) (hp : p < 2 ^ 64) : ptrSub (ptrAdd p off) off = p := by
  unfold ptrSub ptrAdd
  omega

/-- C12, as stated, fails: with both arrays present (array 1 pinned at 1000,
array 2 at 2000) and a call that returns `OK`, the log is acquire 1, acquire 2,
release 1, release 2, not acquire 1, acquire 2, release 2, release 1. -/
theorem copyMemory_releases_source_first :
    (copyMemory ByteOrder.little (fun a => 1000 * a) ⟨fun _ => 0, []⟩
        (some 1) 0 0 (some 2) 0 0 2 3 0 1).1 = CPYMEM_ERRNO_OK ∧
      (copyMemory ByteOrder.little (fun a => 1000 * a) ⟨fun _ => 0, []⟩
        (some 1) 0 0 (some 2) 0 0 2 3 0 1).2.pins
        = [PinEvent.acquire 1, PinEvent.acquire 2,
            PinEvent.release 1 1000, PinEvent.release 2 2000] ∧
      (copyMemory ByteOrder.little (fun a => 1000 * a) ⟨fun _ => 0, []⟩
        (some 1) 0 0 (some 2) 0 0 2 3 0 1).2.pins
        ≠ [PinEvent.acquire 1, PinEvent.acquire 2,
            PinEvent.release 2 2000, PinEvent.release 1 1000] := by
  decide

/-- C12, amended: for every call in which both the source array `a` and the
destination array `b` are present and that returns `OK`, the call appends to
the log acquire `a`, acquire `b`, release `a`, release `b`, in this order: the
arrays are released in acquisition order, each at its pointer minus its
offset. -/
theorem copyMemory_release_order (h : ByteOrder) (base : Nat → Nat) (e : Env)
    (a : Nat) (addressIn offsetIn : Int) (b : Nat) (addressOut offsetOut : Int)
    (dataSize count srcE dstE : Int)
    (hok : (copyMemory h base e (some a) addressIn offsetIn (some b) addressOut offsetOut
        dataSize count srcE dstE).1 = CPYMEM_ERRNO_OK) :
    (copyMemory h base e (some a) addressIn offsetIn (some b) addressOut offsetOut
        dataSize count srcE dstE).2.pins
      = e.pins ++ [PinEvent.acquire a, PinEvent.acquire b,
          PinEvent.release a (ptrSub (ptrAdd (base a) offsetIn) offsetIn),
          PinEvent.release b (ptrSub (ptrAdd (base b) offsetOut) offsetOut)] := by
  obtain ⟨m', hd⟩ := dispatch_ne_none_of_ok h base e (some a) addressIn offsetIn (some b)
    addressOut offsetOut dataSize count srcE dstE hok
  rw [copyMemory_pins_of_some h base e (some a) addressIn offsetIn (some b) addressOut
    offsetOut dataSize count srcE dstE m' hd]
  simp [unpin, resolve, GetPrimitiveArrayCritical, ReleasePrimitiveArrayCritical]

/-- C12 amended, at arrays 1 and 2 pinned at 1000 and 2000, `w = 2`, `n = 3`. -/
theorem copyMemory_release_order_witness :
    (copyMemory ByteOrder.little (fun a => 1000 * a) ⟨fun _ => 0, []⟩
        (some 1) 0 0 (some 2) 0 0 2 3 0 1).2.pins
      = [] ++ [PinEvent.acquire 1, PinEvent.acquire 2,
          PinEvent.release 1 (ptrSub (ptrAdd (1000 * 1) 0) 0),
          PinEvent.release 2 (ptrSub (ptrAdd (1000 * 2) 0) 0)] :=
  copyMemory_release_order ByteOrder.little (fun a => 1000 * a) ⟨fun _ => 0, []⟩
    1 0 0 2 0 0 2 3 0 1 (by decide)

/-- C18. Release address: when every base address returned by the pinning acquire
is a 64-bit pointer, on every call that returns `OK` the log grows by the
acquisitions of the present arrays followed by one release per present array,
and the address passed to each release is exactly the base address the acquire
of that array returned, whatever the offsets are. -/
theorem copyMemory_releases_at_acquired_base (h : ByteOrder) (base : Nat → Nat) (e : Env)
    (arrayIn : Option Nat) (addressIn offsetIn : Int)
    (arrayOut : Option Nat) (addressOut offsetOut : Int)
    (dataSize count srcE dstE : Int)
    (hbase : ∀ a, base a < 2 ^ 64)
    (hok : (copyMemory h base e arrayIn addressIn offsetIn arrayOut addressOut offsetOut
        dataSize count srcE dstE).1 = CPYMEM_ERRNO_OK) :
    (copyMemory h base e arrayIn addressIn offsetIn arrayOut addressOut offsetOut
        dataSize count srcE dstE).2.pins
      = e.pins ++ (arrayIn.map PinEvent.acquire).toList
          ++ (arrayOut.map PinEvent.acquire).toList
          ++ (arrayIn.map (fun a => PinEvent.release a (base a))).toList
          ++ (arrayOut.map (fun a => PinEvent.release a (base a))).toList := by
  obtain ⟨m', hd⟩ := dispatch_ne_none_of_ok h base e arrayIn addressIn offsetIn arrayOut
    addressOut offsetOut dataSize count srcE dstE hok
  rw [copyMemory_pins_of_some h base e arrayIn addressIn offsetIn arrayOut addressOut
    offsetOut dataSize count srcE dstE m' hd]
  cases arrayIn <;> cases arrayOut <;>
    simp [unpin, resolve, GetPrimitiveArrayCritical, ReleasePrimitiveArrayCritical,
      ptrSub_ptrAdd _ _ (hbase _)]

/-- C18 at a source array pinned at 1000 with offset 24 and a raw destination
with offset -8. -/
theorem copyMemory_releases_at_acquired_base_witness :
    (copyMemory ByteOrder.little (fun _ => 1000) ⟨fun _ => 0, []⟩
        (some 1) 0 24 none 4096 (-8) 4 2 0 1).2.pins
      = [] ++ ((some 1).map PinEvent.acquire).toList
          ++ ((none : Option Nat).map PinEvent.acquire).toList
          ++ ((some 1).map (fun a => PinEvent.release a ((fun _ => 1000) a))).toList
          ++ ((none : Option Nat).map
              (fun a => PinEvent.release a ((fun _ => 1000) a))).toList :=
  copyMemory_releases_at_acquired_base ByteOrder.little (fun _ => 1000) ⟨fun _ => 0, []⟩
    (some 1) 0 24 none 4096 (-8) 4 2 0 1
    (fun _ => (by decide : (1000 : Nat) < 2 ^ 64)) (by decide)

theorem flip16_bulk_iterate (h : ByteOrder) (c : Nat) (s : Cursor) :
    flip16_bulk h c s = (quad_step h)^[c] s := by
  induction c generalizing s with
  | zero => rfl
  | succ c ih => rw [flip16_bulk, Function.iterate_succ_apply, ← ih]; rfl

theorem flip16_tail_iterate (h : ByteOrder) (c : Nat) (s : Cursor) :
    flip16_tail h c s = (elem16_step h)^[c] s := by
  induction c generalizing s with
  | zero => rfl
  | succ c ih => rw [flip16_tail, Function.iterate_succ_apply, ← ih]; rfl

theorem flip32_bulk_iterate (h : ByteOrder) (c : Nat) (s : Cursor) :
    flip32_bulk h c s = (dual_step h)^[c] s := by
  induction c generalizing s with
  | zero => rfl
  | succ c ih => rw [flip32_bulk, Function.iterate_succ_apply, ← ih]; rfl

theorem elem32_iterate (h : ByteOrder) (c : Nat) (s : Cursor) :
    (elem32_step h)^[c] s = chunkLoop 4 4 c s := by
  induction c generalizing s with
  | zero => rfl
  | succ c ih =>
    rw [Function.iterate_succ_apply, ih, chunkLoop, ← store_flip32_load h]
    rfl

theorem cpymem_flip16_steps (h : ByteOrder) (m : Mem) (out inp n : Nat) :
    cpymem_flip16 h m out inp n
      = ((elem16_step h)^[n % 4] ((quad_step h)^[n / 4] ⟨m, inp, out⟩)).mem := by
  have hr : n % 4 % 2 ^ 16 = n % 4 := Nat.mod_eq_of_lt (by omega)
  simp only [cpymem_flip16, flip16_bulk_iterate, flip16_tail_iterate, hr]
  split_ifs with h0
  · rfl
  · have : n % 4 = 0 := by omega
    rw [this]; rfl

theorem cpymem_flip32_steps (h : ByteOrder) (m : Mem) (out inp n : Nat) :
    cpymem_flip32 h m out inp n
      = ((elem32_step h)^[n % 2] ((dual_step h)^[n / 2] ⟨m, inp, out⟩)).mem := by
  simp only [cpymem_flip32, flip32_bulk_iterate]
  rcases Nat.mod_two_eq_zero_or_one n with h0 | h1
  · rw [h0]; simp
  · rw [h1]; simp [elem32_step]

theorem naive_flip16_spec (h : ByteOrder) (m : Mem) (out inp n : Nat)
    (hdisj : inp + 2 * n ≤ out ∨ out + 2 * n ≤ inp) :
    naive_flip16 h m out inp n = revCopy 2 m out inp (2 * n) := by
  rw [naive_flip16, ← flip16_tail_iterate, flip16_tail_eq,
    chunkLoop_mem 2 2 n ⟨m, inp, out⟩ (by norm_num) (by norm_num) (by simp only []; omega),
    Nat.mul_comm]

theorem naive_flip32_spec (h : ByteOrder) (m : Mem) (out inp n : Nat)
    (hdisj : inp + 4 * n ≤ out ∨ out + 4 * n ≤ inp) :
    naive_flip32 h m out inp n = revCopy 4 m out inp (4 * n) := by
  rw [naive_flip32, elem32_iterate,
    chunkLoop_mem 4 4 n ⟨m, inp, out⟩ (by norm_num) (by norm_num) (by simp only []; omega),
    Nat.mul_comm]

/-- C14. The width-2 kernel equals the naive loop for every `n`: when the source
span and the destination span of `2 n` bytes do not overlap, `cpymem_flip16`
leaves the memory that `flip16` applied to each of the `n` elements one at a
time leaves; the kernel is exactly `n / 4` steps on a 64-bit word with
`flip16_quad` followed by exactly `n % 4` steps on a 16-bit element with
`flip16`; and the residual loop starts at byte offset `8 * (n / 4)` of the source
and of the destination. -/
theorem cpymem_flip16_equals_naive_loop (h : ByteOrder) (m : Mem) (out inp n : Nat) :
    (inp + 2 * n ≤ out ∨ out + 2 * n ≤ inp →
        cpymem_flip16 h m out inp n = naive_flip16 h m out inp n) ∧
      cpymem_flip16 h m out inp n
        = ((elem16_step h)^[n % 4] ((quad_step h)^[n / 4] ⟨m, inp, out⟩)).mem ∧
      ((quad_step h)^[n / 4] ⟨m, inp, out⟩).ptr_in = inp + 8 * (n / 4) ∧
      ((quad_step h)^[n / 4] ⟨m, inp, out⟩).ptr_out = out + 8 * (n / 4) := by
  refine ⟨?_, cpymem_flip16_steps h m out inp n, ?_, ?_⟩
  · intro hdisj
    rw [cpymem_flip16_spec h m out inp n hdisj, naive_flip16_spec h m out inp n hdisj]
  · rw [← flip16_bulk_iterate, flip16_bulk_eq, (chunkLoop_ptr 2 8 (n / 4) ⟨m, inp, out⟩).1,
      Nat.mul_comm]
  · rw [← flip16_bulk_iterate, flip16_bulk_eq, (chunkLoop_ptr 2 8 (n / 4) ⟨m, inp, out⟩).2,
      Nat.mul_comm]

/-- C14 at `n = 5` on the bytes of scenario 4, source at 0 and destination at 64. -/
theorem cpymem_flip16_equals_naive_loop_witness :
    cpymem_flip16 ByteOrder.little
        (memOfList 0 [0xA1, 0xA2, 0xB1, 0xB2, 0xC1, 0xC2, 0xD1, 0xD2, 0xE1, 0xE2]) 64 0 5
      = naive_flip16 ByteOrder.little
        (memOfList 0 [0xA1, 0xA2, 0xB1, 0xB2, 0xC1, 0xC2, 0xD1, 0xD2, 0xE1, 0xE2]) 64 0 5 :=
  (cpymem_flip16_equals_naive_loop ByteOrder.little
    (memOfList 0 [0xA1, 0xA2, 0xB1, 0xB2, 0xC1, 0xC2, 0xD1, 0xD2, 0xE1, 0xE2]) 64 0 5).1
    (by decide)

/-- Scenario 4 of the spec: `w = 2`, `n = 5` on `A1 A2 B1 B2 C1 C2 D1 D2 E1 E2`
gives `A2 A1 B2 B1 C2 C1 D2 D1 E2 E1`, on both hosts. -/
theorem scenario_width2_count5 (h : ByteOrder) :
    bytesAt (copyMemory h (fun _ => 0)
        ⟨memOfList 0 [0xA1, 0xA2, 0xB1, 0xB2, 0xC1, 0xC2, 0xD1, 0xD2, 0xE1, 0xE2], []⟩
        none 0 0 none 64 0 2 5 0 1).2.mem 64 10
      = [0xA2, 0xA1, 0xB2, 0xB1, 0xC2, 0xC1, 0xD2, 0xD1, 0xE2, 0xE1] := by
  cases h <;> decide

/-- C15. The width-4 kernel equals the naive loop for every `n`: when the source
span and the destination span of `4 n` bytes do not overlap, `cpymem_flip32`
leaves the memory that `flip32` applied to each of the `n` elements one at a
time leaves; the kernel is exactly `n / 2` steps that each load, `flip32_dual`
and store one 64-bit word, followed by `n % 2` steps (one when `n` is odd, none
otherwise) on a 32-bit element with `flip32`; and that trailing element is at
byte offset `8 * (n / 2)` of the source and of the destination. -/
theorem cpymem_flip32_equals_naive_loop (h : ByteOrder) (m : Mem) (out inp n : Nat) :
    (inp + 4 * n ≤ out ∨ out + 4 * n ≤ inp →
        cpymem_flip32 h m out inp n = naive_flip32 h m out inp n) ∧
      cpymem_flip32 h m out inp n
        = ((elem32_step h)^[n % 2] ((dual_step h)^[n / 2] ⟨m, inp, out⟩)).mem ∧
      ((dual_step h)^[n / 2] ⟨m, inp, out⟩).ptr_in = inp + 8 * (n / 2) ∧
      ((dual_step h)^[n / 2] ⟨m, inp, out⟩).ptr_out = out + 8 * (n / 2) := by
  refine ⟨?_, cpymem_flip32_steps h m out inp n, ?_, ?_⟩
  · intro hdisj
    rw [cpymem_flip32_spec h m out inp n hdisj, naive_flip32_spec h m out inp n hdisj]
  · rw [← flip32_bulk_iterate, flip32_bulk_eq, (chunkLoop_ptr 4 8 (n / 2) ⟨m, inp, out⟩).1,
      Nat.mul_comm]
  · rw [← flip32_bulk_iterate, flip32_bulk_eq, (chunkLoop_ptr 4 8 (n / 2) ⟨m, inp, out⟩).2,
      Nat.mul_comm]

/-- C15 at `n = 3` (one 64-bit step and one trailing element), source at 0 and
destination at 64. -/
theorem cpymem_flip32_equals_naive_loop_witness :
    cpymem_flip32 ByteOrder.big (memOfList 0 [1, 2, 3, 4, 5, 6, 7, 8, 9, 10, 11, 12]) 64 0 3
      = naive_flip32 ByteOrder.big (memOfList 0 [1, 2, 3, 4, 5, 6, 7, 8, 9, 10, 11, 12]) 64 0 3 :=
  (cpymem_flip32_equals_naive_loop ByteOrder.big
    (memOfList 0 [1, 2, 3, 4, 5, 6, 7, 8, 9, 10, 11, 12]) 64 0 3).1 (by decide)

/-- Tail correctness for width 2: for every `n` from 0 to 7 and both hosts, the
kernel run on sixteen bytes swaps the first `n` byte pairs and leaves the rest
of the destination alone. -/
theorem tail_correctness_width2 (h : ByteOrder) :
    ∀ n, n < 8 →
      bytesAt (cpymem_flip16 h (memOfList 0 (List.range 16)) 64 0 n) 64 16
        = bytesAt (revCopy 2 (memOfList 0 (List.range 16)) 64 0 (2 * n)) 64 16 := by
  cases h <;> decide

/-- Tail correctness for width 4: for every `n` from 0 to 3 and both hosts, the
kernel run on sixteen bytes reverses the first `n` groups of four bytes and
leaves the rest of the destination alone. -/
theorem tail_correctness_width4 (h : ByteOrder) :
    ∀ n, n < 4 →
      bytesAt (cpymem_flip32 h (memOfList 0 (List.range 16)) 64 0 n) 64 16
        = bytesAt (revCopy 4 (memOfList 0 (List.range 16)) 64 0 (4 * n)) 64 16 := by
  cases h <;> decide

end AccessorNatives
